import Mathlib

/-!
# refcnt: a reference-counted allocator layered over malloc / realloc / free

Shallow embedding of `refcnt.h` and of the demonstration program `test.c`.

Platform constants (LP64): `size_t` is 64 bits wide, `int` and `atomic_uint`
are 32 bits wide, so `_refcnt` is laid out as

  REFCNT_CHECK defined:   magic at 0, refcount at 4, data at 8   (sizeof = 8)
  REFCNT_CHECK undefined: refcount at 0, data at 4               (sizeof = 4)

The C library (`malloc`, `realloc`, `free`, `strlen`, `strcpy`, `fprintf`) is
not part of the repository; it is modelled after ISO C 2011, 7.21.6, 7.22.3
and 7.24, and after glibc where the standard leaves the behaviour to the
implementation (a zero-byte `realloc`).  The pointer a call to `malloc` / `realloc` returns is an
argument (`ans`) of the model, `NULL` meaning that no region was handed out.

A store past the end of a region is undefined behaviour in ISO C.  The machine
performs it all the same (the bytes land behind the region) and the program
goes on; the model records the region in `Mem.overruns`, leaves the region as
it was, and goes on too.  A load past the end of a region, or from a region
that was freed, has no value the model could give: the run ends as
`Outcome.undefined`.
-/

namespace Refcnt

/-! ## Machine integers and addresses -/

/-- Addresses.  Pointer arithmetic that would leave the address space below
(`ptr - offsetof(_refcnt, data)` with `ptr` smaller than the offset) is
undefined behaviour and is guarded where it occurs. -/
abbrev Addr := Nat

/-- The null pointer. -/
def NULL : Addr := 0

/-- Modulus of `size_t` arithmetic (`SIZE_MAX + 1`). -/
def SIZE_MOD : Nat := 2 ^ 64

/-- Modulus of `unsigned int` / `atomic_uint` arithmetic (`UINT_MAX + 1`). -/
def UINT_MOD : Nat := 2 ^ 32

/-- The literal `0xdeadbeef`; it does not fit `int`, so its C type is `unsigned int`. -/
def MAGIC : Nat := 0xdeadbeef

/-- Conversion `unsigned int` to `int` (two's complement), as in `ref->magic = 0xdeadbeef`. -/
def intOfUInt (n : Nat) : Int :=
  if n % UINT_MOD < 2 ^ 31 then ((n % UINT_MOD : Nat) : Int)
  else ((n % UINT_MOD : Nat) : Int) - ((UINT_MOD : Nat) : Int)

/-- Conversion `int` to `unsigned int`, the usual arithmetic conversion applied
to `ref->magic` in `ref->magic == 0xdeadbeef`. -/
def uintOfInt (i : Int) : Nat := (i % ((UINT_MOD : Nat) : Int)).toNat

/-! ## Layout of `_refcnt` -/

/-- Value of `sizeof(_refcnt)`; `check` says whether `REFCNT_CHECK` is defined. -/
def sizeofRefcnt (check : Bool) : Nat := if check then 8 else 4

/-- Value of `offsetof(_refcnt, data)`. -/
def offsetofData (check : Bool) : Nat := if check then 8 else 4

/-- Value of `offsetof(_refcnt, refcount)`. -/
def offsetofRefcount (check : Bool) : Nat := if check then 4 else 0

/-! ## Memory -/

/-- One region obtained from the allocator, viewed as a `_refcnt`.
`size` is the number of bytes of the region; a header field or payload byte
is `none` while its value is indeterminate. -/
structure Block where
  size : Nat
  magic : Option Int
  refcount : Option Nat
  data : List (Option Nat)
deriving DecidableEq, Repr

/-- Calls received by the C library allocator (the free hook of the spec). -/
inductive LibcCall where
  | malloc (n : Nat)
  | realloc (p : Addr) (n : Nat)
  | free (p : Addr)
deriving DecidableEq, Repr

/-- The heap: live regions by start address, the allocator calls made so far,
oldest first, and the regions (by start address) past whose end a store was
made. -/
structure Mem where
  blocks : Addr → Option Block
  calls : List LibcCall
  overruns : List Addr

/-- The heap with no region and no call. -/
def Mem.empty : Mem := { blocks := fun _ => none, calls := [], overruns := [] }

/-- Replace what lives at address `a`. -/
def Mem.set (m : Mem) (a : Addr) (b : Option Block) : Mem :=
  { m with blocks := fun x => if x = a then b else m.blocks x }

/-- Record an allocator call. -/
def Mem.log (m : Mem) (c : LibcCall) : Mem :=
  { m with calls := m.calls ++ [c] }

/-- Record a store past the end of the region that starts at `a`. -/
def Mem.overrun (m : Mem) (a : Addr) : Mem :=
  { m with overruns := m.overruns ++ [a] }

/-- Number of `free` calls recorded. -/
def countFrees : List LibcCall → Nat
  | [] => 0
  | LibcCall.free _ :: cs => countFrees cs + 1
  | _ :: cs => countFrees cs

/-- Result of running a library function. -/
inductive Outcome (α : Type) where
  | ok (val : α) (mem : Mem)
  | assertFail
  | undefined

/-! ### Field access, with bounds -/

/-- Read `ref->magic`. -/
def Block.loadMagic (b : Block) : Option Int :=
  if 4 ≤ b.size then b.magic else none

/-- Write `ref->magic`; `none` when the field lies outside the region. -/
def Block.storeMagic (b : Block) (v : Int) : Option Block :=
  if 4 ≤ b.size then some { b with magic := some v } else none

/-- Read `ref->refcount`. -/
def Block.loadRefcount (check : Bool) (b : Block) : Option Nat :=
  if offsetofRefcount check + 4 ≤ b.size then b.refcount else none

/-- Write `ref->refcount`; `none` when the field lies outside the region. -/
def Block.storeRefcount (check : Bool) (b : Block) (v : Nat) : Option Block :=
  if offsetofRefcount check + 4 ≤ b.size then some { b with refcount := some v } else none

/-- Standard `atomic_init(&ref->refcount, v)`. -/
def atomic_init (check : Bool) (b : Block) (v : Nat) : Option Block :=
  b.storeRefcount check (v % UINT_MOD)

/-- Standard `atomic_fetch_add(&ref->refcount, k)`: the value before, and the block after. -/
def atomic_fetch_add (check : Bool) (b : Block) (k : Nat) : Option (Nat × Block) :=
  match b.loadRefcount check with
  | none => none
  | some old =>
    match b.storeRefcount check ((old + k) % UINT_MOD) with
    | none => none
    | some b1 => some (old, b1)

/-- Standard `atomic_fetch_sub(&ref->refcount, k)`: the value before, and the block after. -/
def atomic_fetch_sub (check : Bool) (b : Block) (k : Nat) : Option (Nat × Block) :=
  match b.loadRefcount check with
  | none => none
  | some old =>
    match b.storeRefcount check ((old + (UINT_MOD - k % UINT_MOD)) % UINT_MOD) with
    | none => none
    | some b1 => some (old, b1)

/-- A store through `ref` into the block `b`.  `stored` is the block after the
store, or `none` when the bytes written lie past the end of the region: then
the region stays as it was and the overrun is recorded. -/
def commitStore (m : Mem) (ref : Addr) (b : Block) (stored : Option Block) : Block × Mem :=
  match stored with
  | some b1 => (b1, m)
  | none => (b, m.overrun ref)

/-! ### The C library -/

/-- A fresh region of `n` bytes, contents indeterminate. -/
def rawBlock (check : Bool) (n : Nat) : Block :=
  { size := n, magic := none, refcount := none,
    data := List.replicate (n - sizeofRefcnt check) none }

/-- The region `old` after `realloc` to `n` bytes: contents kept up to the
lesser of the old and new sizes, the rest indeterminate. -/
def resized (check : Bool) (old : Block) (n : Nat) : Block :=
  { size := n,
    magic := if 4 ≤ min old.size n then old.magic else none,
    refcount := if offsetofRefcount check + 4 ≤ min old.size n then old.refcount else none,
    data := old.data.take (min old.size n - sizeofRefcnt check)
      ++ List.replicate ((n - sizeofRefcnt check)
          - (old.data.take (min old.size n - sizeofRefcnt check)).length) none }

/-- C `malloc(n)` answering `ans`. -/
def libc_malloc (check : Bool) (ans : Addr) (m : Mem) (n : Nat) : Addr × Mem :=
  if ans = NULL then (NULL, m.log (LibcCall.malloc n))
  else (ans, (m.log (LibcCall.malloc n)).set ans (some (rawBlock check n)))

/-- C `realloc(p, n)` answering `ans`; `none` when `p` is not a live region
(undefined behaviour).  A request of at least one byte answered `NULL` could
not be satisfied: the old region is not deallocated and keeps its value
(ISO C 7.22.3.5).  A request of zero bytes answered `NULL` is no failure: the
old region has been freed, as glibc does. -/
def libc_realloc (check : Bool) (ans : Addr) (m : Mem) (p : Addr) (n : Nat) :
    Option (Addr × Mem) :=
  match m.blocks p with
  | none => none
  | some old =>
    if ans = NULL then
      if n = 0 then some (NULL, (m.log (LibcCall.realloc p n)).set p none)
      else some (NULL, m.log (LibcCall.realloc p n))
    else some (ans, (((m.log (LibcCall.realloc p n)).set p none).set ans
      (some (resized check old n))))

/-- C `free(p)`; `none` when `p` is not a live region (undefined behaviour). -/
def libc_free (m : Mem) (p : Addr) : Option Mem :=
  match m.blocks p with
  | none => none
  | some _ => some ((m.log (LibcCall.free p)).set p none)

/-- C `strlen(str)`, `str` being the bytes of the object from the pointer on;
`none` when no terminator is found inside the object. -/
def strlen : List Nat → Option Nat
  | [] => none
  | c :: cs => if c = 0 then some 0 else (strlen cs).map (fun n => n + 1)

/-- C `strcpy(ref->data, str)`: copies the characters and the terminator;
`none` when the source has no terminator or the destination is too short
(the copy runs past the end of the region). -/
def strcpy (b : Block) (str : List Nat) : Option Block :=
  match strlen str with
  | none => none
  | some n =>
    if n + 1 ≤ b.data.length then
      some { b with data := (str.take (n + 1)).map some ++ b.data.drop (n + 1) }
    else none

/-! ## refcnt.h -/

/-- The test `ref->magic == 0xdeadbeef` of the three assertions. -/
def magicOk (b : Block) : Option Bool :=
  match b.loadMagic with
  | none => none
  | some v => some (decide (uintOfInt v = MAGIC))

/-- `refcnt_malloc(len)`. -/
def refcnt_malloc (check : Bool) (ans : Addr) (m : Mem) (len : Nat) : Outcome Addr :=
  match libc_malloc check ans m ((sizeofRefcnt check + len) % SIZE_MOD) with
  | (ref, m1) =>
    if ref = NULL then Outcome.ok NULL m1
    else
      match m1.blocks ref with
      | none => Outcome.undefined
      | some b0 =>
        match commitStore m1 ref b0
            (if check then b0.storeMagic (intOfUInt MAGIC) else some b0) with
        | (b1, m2) =>
          match commitStore m2 ref b1 (atomic_init check b1 1) with
          | (b2, m3) => Outcome.ok (ref + offsetofData check) (m3.set ref (some b2))

/-- `refcnt_realloc(ptr, len)`. -/
def refcnt_realloc (check : Bool) (ans : Addr) (m : Mem) (ptr : Addr) (len : Nat) :
    Outcome Addr :=
  if ptr < offsetofData check then Outcome.undefined else
  let ref : Addr := ptr - offsetofData check
  match m.blocks ref with
  | none => Outcome.undefined
  | some b =>
    match (if check then magicOk b else some true) with
    | none => Outcome.undefined
    | some false => Outcome.assertFail
    | some true =>
      match libc_realloc check ans m ref ((sizeofRefcnt check + len) % SIZE_MOD) with
      | none => Outcome.undefined
      | some (ref1, m1) =>
        if ref1 = NULL then Outcome.ok NULL m1
        else Outcome.ok (ref1 + offsetofData check) m1

/-- `refcnt_ref(ptr)`. -/
def refcnt_ref (check : Bool) (m : Mem) (ptr : Addr) : Outcome Addr :=
  if ptr < offsetofData check then Outcome.undefined else
  let ref : Addr := ptr - offsetofData check
  match m.blocks ref with
  | none => Outcome.undefined
  | some b =>
    match (if check then magicOk b else some true) with
    | none => Outcome.undefined
    | some false => Outcome.assertFail
    | some true =>
      match atomic_fetch_add check b 1 with
      | none => Outcome.undefined
      | some (_, b1) => Outcome.ok (ref + offsetofData check) (m.set ref (some b1))

/-- `refcnt_unref(ptr)`. -/
def refcnt_unref (check : Bool) (m : Mem) (ptr : Addr) : Outcome Unit :=
  if ptr < offsetofData check then Outcome.undefined else
  let ref : Addr := ptr - offsetofData check
  match m.blocks ref with
  | none => Outcome.undefined
  | some b =>
    match (if check then magicOk b else some true) with
    | none => Outcome.undefined
    | some false => Outcome.assertFail
    | some true =>
      match atomic_fetch_sub check b 1 with
      | none => Outcome.undefined
      | some (old, b1) =>
        if old = 1 then
          match libc_free (m.set ref (some b1)) ref with
          | none => Outcome.undefined
          | some m2 => Outcome.ok () m2
        else Outcome.ok () (m.set ref (some b1))

/-- `refcnt_strdup(str)`; `str` is the bytes of the source object from the
pointer on. -/
def refcnt_strdup (check : Bool) (ans : Addr) (m : Mem) (str : List Nat) : Outcome Addr :=
  match strlen str with
  | none => Outcome.undefined
  | some n =>
    match libc_malloc check ans m (((sizeofRefcnt check + n) % SIZE_MOD + 1) % SIZE_MOD) with
    | (ref, m1) =>
      if ref = NULL then Outcome.ok NULL m1
      else
        match m1.blocks ref with
        | none => Outcome.undefined
        | some b0 =>
          match commitStore m1 ref b0
              (if check then b0.storeMagic (intOfUInt MAGIC) else some b0) with
          | (b1, m2) =>
            match commitStore m2 ref b1 (atomic_init check b1 1) with
            | (b2, m3) =>
              match commitStore m3 ref b2 (strcpy b2 str) with
              | (b3, m4) => Outcome.ok (ref + offsetofData check) (m4.set ref (some b3))

/-! ## test.c -/

/-- Value of `NUM_ITERATIONS`. -/
def NUM_ITERATIONS : Nat := 10000

/-- Value of `NUM_THREADS`. -/
def NUM_THREADS : Nat := 128

/-- Outcome of `str2 = refcnt_ref(str); refcnt_unref(str2);`, one turn of the
loop of `test_thread` (the `fprintf` in between only reads). -/
def refThenUnref (check : Bool) (m : Mem) (str : Addr) : Outcome Unit :=
  match refcnt_ref check m str with
  | Outcome.ok str2 m1 => refcnt_unref check m1 str2
  | Outcome.assertFail => Outcome.assertFail
  | Outcome.undefined => Outcome.undefined

/-- The loop of `test_thread`, run for `n` iterations. -/
def testLoop (check : Bool) : Nat → Mem → Addr → Outcome Unit
  | 0, m, _ => Outcome.ok () m
  | n + 1, m, str =>
    match refThenUnref check m str with
    | Outcome.ok _ m1 => testLoop check n m1 str
    | Outcome.assertFail => Outcome.assertFail
    | Outcome.undefined => Outcome.undefined

/-- `test_thread(arg)` with `iterations` turns of the loop, run without
interference from other threads. -/
def test_thread (check : Bool) (iterations : Nat) (m : Mem) (arg : Addr) : Outcome Unit :=
  match testLoop check iterations m arg with
  | Outcome.ok _ m1 => refcnt_unref check m1 arg
  | Outcome.assertFail => Outcome.assertFail
  | Outcome.undefined => Outcome.undefined

/-! ## Sequences and interleavings of ownership calls -/

/-- The two ownership calls. -/
inductive Op where
  | ref
  | unref
deriving DecidableEq, Repr

/-- One ownership call on the handle `h`; the value is the handle the caller
holds afterwards (the pointer returned by `refcnt_ref`). -/
def execOp (check : Bool) (m : Mem) (h : Addr) : Op → Outcome Addr
  | Op.ref => refcnt_ref check m h
  | Op.unref =>
    match refcnt_unref check m h with
    | Outcome.ok _ m1 => Outcome.ok h m1
    | Outcome.assertFail => Outcome.assertFail
    | Outcome.undefined => Outcome.undefined

/-- Run the calls `ops` one after the other, each on the handle held after the
previous one. -/
def runOps (check : Bool) : Mem → Addr → List Op → Outcome Addr
  | m, h, [] => Outcome.ok h m
  | m, h, op :: ops =>
    match execOp check m h op with
    | Outcome.ok h1 m1 => runOps check m1 h1 ops
    | Outcome.assertFail => Outcome.assertFail
    | Outcome.undefined => Outcome.undefined

/-- The ownership calls of `test_thread`, in program order. -/
def threadOps : Nat → List Op
  | 0 => [Op.unref]
  | n + 1 => Op.ref :: Op.unref :: threadOps n

/-- State of a set of threads sharing one handle: the heap and, per thread,
the ownership calls it still has to make. -/
structure Sys where
  mem : Mem
  progs : List (List Op)

/-- Result of running threads. -/
inductive Run where
  | ok (s : Sys)
  | assertFail
  | undefined

/-- Thread `i` makes its next call, atomically; a thread that has finished (or
does not exist) does nothing. -/
def stepThread (check : Bool) (h : Addr) (s : Sys) (i : Nat) : Run :=
  match s.progs.get? i with
  | none => Run.ok s
  | some [] => Run.ok s
  | some (op :: rest) =>
    match execOp check s.mem h op with
    | Outcome.ok _ m1 => Run.ok { mem := m1, progs := s.progs.set i rest }
    | Outcome.assertFail => Run.assertFail
    | Outcome.undefined => Run.undefined

/-- Run the threads under the schedule `sched`, the list of the thread chosen
at each step. -/
def runSched (check : Bool) (h : Addr) : Sys → List Nat → Run
  | s, [] => Run.ok s
  | s, i :: sched =>
    match stepThread check h s i with
    | Run.ok s1 => runSched check h s1 sched
    | Run.assertFail => Run.assertFail
    | Run.undefined => Run.undefined

/-- Every thread has made all its calls. -/
def Sys.finished (s : Sys) : Prop := ∀ p ∈ s.progs, p = []

/-! ## Predicates and observations used by the statements -/

/-- The block `b` is a counted object in good standing: its header lies inside
the region, its refcount field holds the `atomic_uint` value `r`, and (when
`REFCNT_CHECK` is defined) its sentinel passes the assertion. -/
def Genuine (check : Bool) (b : Block) (r : Nat) : Prop :=
  sizeofRefcnt check ≤ b.size ∧ b.refcount = some r ∧ r < UINT_MOD ∧
    (check = true → magicOk b = some true)

instance instDecidableGenuine (check : Bool) (b : Block) (r : Nat) :
    Decidable (Genuine check b r) := by
  unfold Genuine; infer_instance

/-- What lives at address `a` after a run that returned. -/
def Outcome.blockAt {α : Type} (o : Outcome α) (a : Addr) : Option Block :=
  match o with
  | Outcome.ok _ m => m.blocks a
  | _ => none

/-- The value returned, if the run returned. -/
def Outcome.value {α : Type} (o : Outcome α) : Option α :=
  match o with
  | Outcome.ok v _ => some v
  | _ => none

/-- The allocator calls recorded after a run that returned. -/
def Outcome.callsMade {α : Type} (o : Outcome α) : List LibcCall :=
  match o with
  | Outcome.ok _ m => m.calls
  | _ => []

/-- The run hit undefined behaviour. -/
def Outcome.isUndefined {α : Type} (o : Outcome α) : Bool :=
  match o with
  | Outcome.undefined => true
  | _ => false

/-- The run stopped in a failed `assert`. -/
def Outcome.isAssertFail {α : Type} (o : Outcome α) : Bool :=
  match o with
  | Outcome.assertFail => true
  | _ => false

/-- A block right after creation: region of header plus payload, sentinel
written when `REFCNT_CHECK` is defined, refcount 1, payload `data`. -/
def freshBlock (check : Bool) (data : List (Option Nat)) : Block :=
  { size := sizeofRefcnt check + data.length,
    magic := if check then some (intOfUInt MAGIC) else none,
    refcount := some 1,
    data := data }

/-- The payload of `b` fills the region behind the header exactly. -/
def WellSized (check : Bool) (b : Block) : Prop :=
  b.size = sizeofRefcnt check + b.data.length

instance instDecidableWellSized (check : Bool) (b : Block) : Decidable (WellSized check b) := by
  unfold WellSized; infer_instance

/-- The block `b` with `v` in its refcount field. -/
def Block.withCount (b : Block) (v : Nat) : Block := { b with refcount := some v }

/-! ### Measures on thread programs -/

/-- References a thread still holds when its remaining calls are `p`: the
releases minus the duplicates it has yet to make. -/
def bal : List Op → Int
  | [] => 0
  | Op.ref :: p => bal p - 1
  | Op.unref :: p => bal p + 1

/-- Before each of its remaining calls the thread holds at least one reference. -/
def Safe : List Op → Prop
  | [] => True
  | op :: p => 1 ≤ bal (op :: p) ∧ Safe p

/-- Largest number of references the thread holds before any remaining call. -/
def peak : List Op → Int
  | [] => 0
  | op :: p => max (bal (op :: p)) (peak p)

/-- Sum of a measure over all threads. -/
def total (f : List Op → Int) (progs : List (List Op)) : Int := (progs.map f).sum

/-- The schedule gives every thread at least as many steps as it has calls. -/
def Complete (progs : List (List Op)) (sched : List Nat) : Prop :=
  ∀ i, i < progs.length → (progs.getD i []).length ≤ sched.count i

/-- Invariant of a run of threads that share the block at `base`: every thread
is `Safe`, the references held never exceed `UINT_MAX + 1`, and either the
block is live, holds the number of references held (modulo `UINT_MAX + 1`) and
nothing was freed, or no reference is held and the region was freed once. -/
def Inv (base : Addr) (b : Block) (calls0 : List LibcCall) (s : Sys) : Prop :=
  (∀ p ∈ s.progs, Safe p) ∧ total peak s.progs ≤ (UINT_MOD : Int) ∧
  ((1 ≤ total bal s.progs ∧ ∃ m : Mem, m.calls = calls0 ∧
      s.mem = m.set base (some (b.withCount ((total bal s.progs).toNat % UINT_MOD))))
    ∨ (total bal s.progs = 0 ∧ s.mem.blocks base = none ∧
        s.mem.calls = calls0 ++ [LibcCall.free base]))

/-- Forget the handle a run of calls ends with. -/
def Outcome.forget {α : Type} (o : Outcome α) : Outcome Unit :=
  match o with
  | Outcome.ok _ m => Outcome.ok () m
  | Outcome.assertFail => Outcome.assertFail
  | Outcome.undefined => Outcome.undefined

/-- What lives at address `a` after a run of threads that did not fail. -/
def Run.blockAt (o : Run) (a : Addr) : Option Block :=
  match o with
  | Run.ok s => s.mem.blocks a
  | _ => none

/-- The allocator calls recorded after a run of threads that did not fail. -/
def Run.callsMade (o : Run) : List LibcCall :=
  match o with
  | Run.ok s => s.mem.calls
  | _ => []

/-- The run of threads hit undefined behaviour. -/
def Run.isUndefined (o : Run) : Bool :=
  match o with
  | Run.undefined => true
  | _ => false

/-! ### Concrete states -/

/-- The object holding the C string "Hello". -/
def hello : List Nat := [72, 101, 108, 108, 111, 0]

/-- The block `refcnt_strdup("Hello")` builds when `REFCNT_CHECK` is defined,
with `r` in its refcount field. -/
def helloBlock (r : Nat) : Block :=
  { size := 14, magic := some (-559038737), refcount := some r,
    data := [some 72, some 101, some 108, some 108, some 111, some 0] }

/-- A heap whose only region is `helloBlock r`, at address 16. -/
def helloMem (r : Nat) : Mem :=
  { blocks := fun x => if x = 16 then some (helloBlock r) else none,
    calls := [LibcCall.malloc 14], overruns := [] }

/-- A block without sentinel (`REFCNT_CHECK` undefined) whose refcount is `UINT_MAX`. -/
def maxBlock : Block :=
  { size := 4, magic := none, refcount := some 4294967295, data := [] }

/-- The "Hello" block after its sentinel was overwritten with 0. -/
def corruptBlock : Block :=
  { size := 14, magic := some 0, refcount := some 1,
    data := [some 72, some 101, some 108, some 108, some 111, some 0] }

/-- A heap whose only region is `corruptBlock`, at address 16. -/
def corruptMem : Mem :=
  { blocks := fun x => if x = 16 then some corruptBlock else none,
    calls := [LibcCall.malloc 14], overruns := [] }

/-- A heap whose only region is `maxBlock`, at address 16. -/
def maxMem : Mem :=
  { blocks := fun x => if x = 16 then some maxBlock else none,
    calls := [LibcCall.malloc 4], overruns := [] }

/-- The description of `duplicateString` in the specification, section 4.1:
`create(length(text) + 1)` followed by copying the bytes of `text`, terminator
included, into the payload of the block behind the handle returned. -/
def createThenCopy (check : Bool) (ans : Addr) (m : Mem) (str : List Nat) : Outcome Addr :=
  match strlen str with
  | none => Outcome.undefined
  | some n =>
    match refcnt_malloc check ans m ((n + 1) % SIZE_MOD) with
    | Outcome.ok h m1 =>
      if h = NULL then Outcome.ok NULL m1
      else
        match m1.blocks (h - offsetofData check) with
        | none => Outcome.undefined
        | some b =>
          match commitStore m1 (h - offsetofData check) b (strcpy b str) with
          | (b1, m2) => Outcome.ok h (m2.set (h - offsetofData check) (some b1))
    | Outcome.assertFail => Outcome.assertFail
    | Outcome.undefined => Outcome.undefined

/-- The heap after a run that returned; the empty heap otherwise. -/
def Outcome.heap {α : Type} (o : Outcome α) : Mem :=
  match o with
  | Outcome.ok _ m => m
  | _ => Mem.empty

/-! ### Sequences of calls by the owners of one block -/

/-- A call made by an owner of a block; for a resize, the answer of `realloc`
and the new payload size. -/
inductive Call where
  | dup
  | release
  | resize (ans : Addr) (len : Nat)
deriving DecidableEq, Repr

/-- Run the calls one after the other on the handle in use: `refcnt_ref` hands
the handle back, a successful `refcnt_realloc` replaces it, and after a
`refcnt_realloc` that returned `NULL` the old handle stays in use. -/
def runCalls (check : Bool) : Mem → Addr → List Call → Outcome Addr
  | m, h, [] => Outcome.ok h m
  | m, h, Call.dup :: cs =>
    match refcnt_ref check m h with
    | Outcome.ok h1 m1 => runCalls check m1 h1 cs
    | Outcome.assertFail => Outcome.assertFail
    | Outcome.undefined => Outcome.undefined
  | m, h, Call.release :: cs =>
    match refcnt_unref check m h with
    | Outcome.ok _ m1 => runCalls check m1 h cs
    | Outcome.assertFail => Outcome.assertFail
    | Outcome.undefined => Outcome.undefined
  | m, h, Call.resize ans len :: cs =>
    match refcnt_realloc check ans m h len with
    | Outcome.ok h1 m1 => if h1 = NULL then runCalls check m1 h cs else runCalls check m1 h1 cs
    | Outcome.assertFail => Outcome.assertFail
    | Outcome.undefined => Outcome.undefined

/-- Number of duplicates in a sequence of calls. -/
def countDup : List Call → Nat
  | [] => 0
  | Call.dup :: cs => countDup cs + 1
  | _ :: cs => countDup cs

/-- Number of releases in a sequence of calls. -/
def countRelease : List Call → Nat
  | [] => 0
  | Call.release :: cs => countRelease cs + 1
  | _ :: cs => countRelease cs

/-- The calls are made by current owners on a block held by `c` owners: every
release leaves an owner (in every initial part of the sequence the releases do
not outnumber the duplicates), the owners stay below `2^32`, and no resize
asks for a size that wraps around `SIZE_MAX`. -/
def admissible (check : Bool) : Nat → List Call → Bool
  | _, [] => true
  | c, Call.dup :: cs => decide (c + 1 < UINT_MOD) && admissible check (c + 1) cs
  | c, Call.release :: cs => decide (2 ≤ c) && admissible check (c - 1) cs
  | c, Call.resize _ len :: cs =>
    decide (sizeofRefcnt check + len < SIZE_MOD) && admissible check c cs

/-! ## Tracing (`REFCNT_TRACE`) -/

/-- Where a traced call stands: the values of `__FILE__`, `__LINE__` and
`__FUNCTION__` there. -/
structure Site where
  file : String
  line : Nat
  func : String
deriving DecidableEq, Repr

/-- The process as a traced call sees it: the heap, and the texts written to
`stderr` so far, oldest first, one for each call of `fprintf`. -/
structure Proc where
  mem : Mem
  stderr : List String

/-- The call `fprintf(stderr, "%s:%d:(%s) %s", file, line, func, call)`: the
four arguments are written in the order and with the punctuation of the
format, `line` in decimal; the heap of the program is not touched. -/
def fprintf_stderr (p : Proc) (file : String) (line : Nat) (func call : String) : Proc :=
  { p with stderr := p.stderr
      ++ [file ++ ":" ++ toString line ++ ":(" ++ func ++ ") " ++ call] }

/-- The statement expression `_REFCNT_TRACE(call)`: the `fprintf` runs first,
then `call` runs on the heap the `fprintf` left, and the value of `call` is the
value of the whole.  `callText` is `#call`, the source text of the call.  The
result is the content of `stderr` and the outcome of `call`. -/
def _REFCNT_TRACE {α : Type} (site : Site) (callText : String) (call : Mem → Outcome α)
    (p : Proc) : List String × Outcome α :=
  match fprintf_stderr p site.file site.line site.func callText with
  | p1 => (p1.stderr, call p1.mem)

/-- The public `refcnt_malloc(len)`: the macro
`_REFCNT_TRACE(_refcnt_malloc(len))` when `REFCNT_TRACE` is defined (`trace`),
the function itself otherwise.  `arg` is the source text of the argument. -/
def api_malloc (trace check : Bool) (site : Site) (arg : String) (ans : Addr) (p : Proc)
    (len : Nat) : List String × Outcome Addr :=
  if trace then
    _REFCNT_TRACE site ("_refcnt_malloc(" ++ arg ++ ")")
      (fun m => refcnt_malloc check ans m len) p
  else (p.stderr, refcnt_malloc check ans p.mem len)

/-- The public `refcnt_realloc(ptr, len)`. -/
def api_realloc (trace check : Bool) (site : Site) (arg1 arg2 : String) (ans : Addr)
    (p : Proc) (ptr : Addr) (len : Nat) : List String × Outcome Addr :=
  if trace then
    _REFCNT_TRACE site ("_refcnt_realloc(" ++ arg1 ++ ", " ++ arg2 ++ ")")
      (fun m => refcnt_realloc check ans m ptr len) p
  else (p.stderr, refcnt_realloc check ans p.mem ptr len)

/-- The public `refcnt_ref(ptr)`. -/
def api_ref (trace check : Bool) (site : Site) (arg : String) (p : Proc) (ptr : Addr) :
    List String × Outcome Addr :=
  if trace then
    _REFCNT_TRACE site ("_refcnt_ref(" ++ arg ++ ")") (fun m => refcnt_ref check m ptr) p
  else (p.stderr, refcnt_ref check p.mem ptr)

/-- The public `refcnt_unref(ptr)`. -/
def api_unref (trace check : Bool) (site : Site) (arg : String) (p : Proc) (ptr : Addr) :
    List String × Outcome Unit :=
  if trace then
    _REFCNT_TRACE site ("_refcnt_unref(" ++ arg ++ ")") (fun m => refcnt_unref check m ptr) p
  else (p.stderr, refcnt_unref check p.mem ptr)

/-- The public `refcnt_strdup(ptr)`. -/
def api_strdup (trace check : Bool) (site : Site) (arg : String) (ans : Addr) (p : Proc)
    (str : List Nat) : List String × Outcome Addr :=
  if trace then
    _REFCNT_TRACE site ("_refcnt_strdup(" ++ arg ++ ")")
      (fun m => refcnt_strdup check ans m str) p
  else (p.stderr, refcnt_strdup check ans p.mem str)

/-! ## Basic facts -/

theorem UINT_MOD_eq : UINT_MOD = 4294967296 := by norm_num [UINT_MOD]

theorem SIZE_MOD_eq : SIZE_MOD = 18446744073709551616 := by norm_num [SIZE_MOD]

theorem Mem.set_blocks_same (m : Mem) (a : Addr) (x : Option Block) :
    (m.set a x).blocks a = x := by simp [Mem.set]

theorem Mem.set_blocks_other (m : Mem) (a a1 : Addr) (x : Option Block) (h : a1 ≠ a) :
    (m.set a x).blocks a1 = m.blocks a1 := by simp [Mem.set, h]

theorem Mem.set_calls (m : Mem) (a : Addr) (x : Option Block) :
    (m.set a x).calls = m.calls := rfl

theorem Mem.log_blocks (m : Mem) (c : LibcCall) : (m.log c).blocks = m.blocks := rfl

theorem Mem.log_calls (m : Mem) (c : LibcCall) : (m.log c).calls = m.calls ++ [c] := rfl

theorem Mem.set_set (m : Mem) (a : Addr) (x y : Option Block) :
    (m.set a x).set a y = m.set a y := by
  simp only [Mem.set]
  congr 1
  funext z
  by_cases hz : z = a <;> simp [hz]

theorem Mem.set_self (m : Mem) (a : Addr) (x : Option Block) (h : m.blocks a = x) :
    m.set a x = m := by
  cases m with
  | mk blocks calls =>
    simp only [Mem.set]
    congr 1
    funext z
    by_cases hz : z = a
    · subst hz; simp [← h]
    · simp [hz]

theorem countFrees_append (xs ys : List LibcCall) :
    countFrees (xs ++ ys) = countFrees xs + countFrees ys := by
  induction xs with
  | nil => simp [countFrees]
  | cons c cs ih =>
    cases c <;> simp [countFrees, ih]; omega

theorem genuine_setRefcount (check : Bool) (b : Block) (r v : Nat) (hg : Genuine check b r)
    (hv : v < UINT_MOD) : Genuine check { b with refcount := some v } v := by
  obtain ⟨hs, _, _, hm⟩ := hg
  exact ⟨hs, rfl, hv, fun hc => by simpa [magicOk, Block.loadMagic] using hm hc⟩

theorem genuine_passes (check : Bool) (b : Block) (r : Nat) (hg : Genuine check b r) :
    (if check then magicOk b else some true) = some true := by
  cases check
  · rfl
  · simpa using hg.2.2.2 rfl

theorem genuine_inBounds (check : Bool) (b : Block) (r : Nat) (hg : Genuine check b r) :
    offsetofRefcount check + 4 ≤ b.size := by
  have h := hg.1
  cases check <;> simpa [offsetofRefcount, sizeofRefcnt] using h

theorem genuine_eta (check : Bool) (b : Block) (r : Nat) (hg : Genuine check b r) :
    ({ b with refcount := some r } : Block) = b := by
  cases b
  simp only [Genuine] at hg
  simp [hg.2.1]

theorem fetch_add_genuine (check : Bool) (b : Block) (r k : Nat) (hg : Genuine check b r) :
    atomic_fetch_add check b k
      = some (r, { b with refcount := some ((r + k) % UINT_MOD) }) := by
  have hin := genuine_inBounds check b r hg
  simp [atomic_fetch_add, Block.loadRefcount, Block.storeRefcount, hin, hg.2.1]

theorem fetch_sub_genuine (check : Bool) (b : Block) (r k : Nat) (hg : Genuine check b r) :
    atomic_fetch_sub check b k
      = some (r, { b with refcount := some ((r + (UINT_MOD - k % UINT_MOD)) % UINT_MOD) }) := by
  have hin := genuine_inBounds check b r hg
  simp [atomic_fetch_sub, Block.loadRefcount, Block.storeRefcount, hin, hg.2.1]

theorem handle_not_below (check : Bool) (base : Addr) :
    ¬ (base + offsetofData check < offsetofData check) :=
  Nat.not_lt.mpr (Nat.le_add_left _ _)

/-- `refcnt_ref` on a genuine block: same handle back, refcount plus one modulo
`UINT_MAX + 1`. -/
theorem refcnt_ref_genuine (check : Bool) (m : Mem) (base : Addr) (b : Block) (r : Nat)
    (hb : m.blocks base = some b) (hg : Genuine check b r) :
    refcnt_ref check m (base + offsetofData check)
      = Outcome.ok (base + offsetofData check)
          (m.set base (some { b with refcount := some ((r + 1) % UINT_MOD) })) := by
  simp only [refcnt_ref, handle_not_below, if_false, Nat.add_sub_cancel, hb,
    genuine_passes check b r hg, fetch_add_genuine check b r 1 hg]

/-- `refcnt_unref` on a genuine block whose refcount is not 1: nothing is freed. -/
theorem refcnt_unref_keep (check : Bool) (m : Mem) (base : Addr) (b : Block) (r : Nat)
    (hb : m.blocks base = some b) (hg : Genuine check b r) (h1 : r ≠ 1) :
    refcnt_unref check m (base + offsetofData check)
      = Outcome.ok ()
          (m.set base (some { b with refcount := some ((r + (UINT_MOD - 1)) % UINT_MOD) })) := by
  simp only [refcnt_unref, handle_not_below, if_false, Nat.add_sub_cancel, hb,
    genuine_passes check b r hg, fetch_sub_genuine check b r 1 hg, h1]
  simp [UINT_MOD_eq]

/-- `refcnt_unref` on a genuine block whose refcount is 1: the region is freed. -/
theorem refcnt_unref_last (check : Bool) (m : Mem) (base : Addr) (b : Block)
    (hb : m.blocks base = some b) (hg : Genuine check b 1) :
    refcnt_unref check m (base + offsetofData check)
      = Outcome.ok () ((m.log (LibcCall.free base)).set base none) := by
  simp only [refcnt_unref, handle_not_below, if_false, Nat.add_sub_cancel, hb,
    genuine_passes check b 1 hg, fetch_sub_genuine check b 1 1 hg, if_true]
  have hset : ∀ x : Option Block, (m.set base x).blocks base = x := fun x => by simp [Mem.set]
  simp only [libc_free, hset]
  have hcollapse : ∀ x : Option Block,
      ((m.set base x).log (LibcCall.free base)).set base none
        = (m.log (LibcCall.free base)).set base none := by
    intro x
    simp only [Mem.set, Mem.log]
    congr 1
    funext z
    by_cases hz : z = base <;> simp [hz]
  rw [hcollapse]

/-- The header initialisation of `refcnt_malloc` / `refcnt_strdup` on a fresh
region that is large enough for the header. -/
theorem init_header (check : Bool) (n : Nat) (hn : sizeofRefcnt check ≤ n) :
    (if check then (rawBlock check n).storeMagic (intOfUInt MAGIC)
      else some (rawBlock check n))
      = some { rawBlock check n with
          magic := if check then some (intOfUInt MAGIC) else none } ∧
    atomic_init check { rawBlock check n with
          magic := if check then some (intOfUInt MAGIC) else none } 1
      = some (freshBlock check (List.replicate (n - sizeofRefcnt check) none)) := by
  cases check
  · simp [sizeofRefcnt] at hn
    simp [atomic_init, Block.storeRefcount, rawBlock, offsetofRefcount, sizeofRefcnt,
      freshBlock, UINT_MOD_eq]
    omega
  · simp [sizeofRefcnt] at hn
    have h4 : 4 ≤ n := by omega
    simp [atomic_init, Block.storeRefcount, Block.storeMagic, rawBlock, offsetofRefcount,
      sizeofRefcnt, freshBlock, UINT_MOD_eq, h4]
    omega

theorem commitStore_some (m : Mem) (ref : Addr) (b b1 : Block) :
    commitStore m ref b (some b1) = (b1, m) := rfl

theorem commitStore_none (m : Mem) (ref : Addr) (b : Block) :
    commitStore m ref b none = (b, m.overrun ref) := rfl

theorem Mem.overrun_blocks (m : Mem) (a : Addr) : (m.overrun a).blocks = m.blocks := rfl

theorem Mem.overrun_calls (m : Mem) (a : Addr) : (m.overrun a).calls = m.calls := rfl

theorem Mem.overrun_set (m : Mem) (a r : Addr) (v : Option Block) :
    (m.set a v).overrun r = (m.overrun r).set a v := rfl

theorem refcnt_malloc_ok (check : Bool) (ans : Addr) (m : Mem) (len : Nat)
    (ha : ans ≠ NULL) (hfit : sizeofRefcnt check + len < SIZE_MOD) :
    refcnt_malloc check ans m len = Outcome.ok (ans + offsetofData check)
      ((m.log (LibcCall.malloc (sizeofRefcnt check + len))).set ans
        (some (freshBlock check (List.replicate len none)))) := by
  have hmod : (sizeofRefcnt check + len) % SIZE_MOD = sizeofRefcnt check + len :=
    Nat.mod_eq_of_lt hfit
  obtain ⟨e1, e2⟩ := init_header check (sizeofRefcnt check + len) (Nat.le_add_right _ _)
  rw [Nat.add_sub_cancel_left] at e2
  simp only [refcnt_malloc, libc_malloc, ha, if_false, hmod, Mem.set_blocks_same, Mem.set_set,
    e1, e2, commitStore_some]

theorem strlen_terminated (text rest : List Nat) (hz : ∀ c ∈ text, c ≠ 0) :
    strlen (text ++ 0 :: rest) = some text.length := by
  induction text with
  | nil => simp [strlen]
  | cons c cs ih =>
    have hc : c ≠ 0 := hz c (List.mem_cons_self c cs)
    have hcs : ∀ d ∈ cs, d ≠ 0 := fun d hd => hz d (List.mem_cons_of_mem c hd)
    simp [strlen, hc, ih hcs]

theorem strcpy_fresh (check : Bool) (text rest : List Nat) (hz : ∀ c ∈ text, c ≠ 0) :
    strcpy (freshBlock check (List.replicate (text.length + 1) none)) (text ++ 0 :: rest)
      = some (freshBlock check (text.map some ++ [some 0])) := by
  have hlen := strlen_terminated text rest hz
  have htake : (text ++ 0 :: rest).take (text.length + 1) = text ++ [0] := by
    rw [List.take_append_eq_append_take]
    simp
  simp [strcpy, hlen, freshBlock, htake]

theorem refcnt_strdup_ok (check : Bool) (ans : Addr) (m : Mem) (text rest : List Nat)
    (hz : ∀ c ∈ text, c ≠ 0) (ha : ans ≠ NULL)
    (hfit : sizeofRefcnt check + text.length + 1 < SIZE_MOD) :
    refcnt_strdup check ans m (text ++ 0 :: rest) = Outcome.ok (ans + offsetofData check)
      ((m.log (LibcCall.malloc (sizeofRefcnt check + text.length + 1))).set ans
        (some (freshBlock check (text.map some ++ [some 0])))) := by
  have hmod1 : (sizeofRefcnt check + text.length) % SIZE_MOD = sizeofRefcnt check + text.length :=
    Nat.mod_eq_of_lt (by omega)
  have hmod2 : (sizeofRefcnt check + text.length + 1) % SIZE_MOD
      = sizeofRefcnt check + text.length + 1 := Nat.mod_eq_of_lt hfit
  have hlen := strlen_terminated text rest hz
  obtain ⟨e1, e2⟩ := init_header check (sizeofRefcnt check + text.length + 1) (by omega)
  have hsub : sizeofRefcnt check + text.length + 1 - sizeofRefcnt check = text.length + 1 := by
    omega
  rw [hsub] at e2
  simp only [refcnt_strdup, hlen, libc_malloc, ha, if_false, hmod1, hmod2, Mem.set_blocks_same,
    Mem.set_set, e1, e2, strcpy_fresh check text rest hz, commitStore_some]

/-- `refcnt_realloc` on a genuine block when `realloc` answers a region. -/
theorem refcnt_realloc_moved (check : Bool) (ans : Addr) (m : Mem) (base : Addr) (b : Block)
    (r len : Nat) (hb : m.blocks base = some b) (hg : Genuine check b r) (ha : ans ≠ NULL) :
    refcnt_realloc check ans m (base + offsetofData check) len
      = Outcome.ok (ans + offsetofData check)
          (((m.log (LibcCall.realloc base ((sizeofRefcnt check + len) % SIZE_MOD))).set base
              none).set ans
            (some (resized check b ((sizeofRefcnt check + len) % SIZE_MOD)))) := by
  simp only [refcnt_realloc, handle_not_below, if_false, Nat.add_sub_cancel, hb,
    genuine_passes check b r hg, libc_realloc, ha]

/-- `refcnt_realloc` on a genuine block when `realloc` answers `NULL`. -/
theorem refcnt_realloc_null (check : Bool) (m : Mem) (base : Addr) (b : Block)
    (r len : Nat) (hb : m.blocks base = some b) (hg : Genuine check b r)
    (hreq : (sizeofRefcnt check + len) % SIZE_MOD ≠ 0) :
    refcnt_realloc check NULL m (base + offsetofData check) len
      = Outcome.ok NULL
          (m.log (LibcCall.realloc base ((sizeofRefcnt check + len) % SIZE_MOD))) := by
  simp only [refcnt_realloc, handle_not_below, if_false, Nat.add_sub_cancel, hb,
    genuine_passes check b r hg, libc_realloc, if_true, hreq]

/-- `refcnt_realloc` on a genuine block when the request is zero bytes and
`realloc` answers `NULL`: the region has been freed. -/
theorem refcnt_realloc_zero (check : Bool) (m : Mem) (base : Addr) (b : Block)
    (r len : Nat) (hb : m.blocks base = some b) (hg : Genuine check b r)
    (hreq : (sizeofRefcnt check + len) % SIZE_MOD = 0) :
    refcnt_realloc check NULL m (base + offsetofData check) len
      = Outcome.ok NULL ((m.log (LibcCall.realloc base 0)).set base none) := by
  simp only [refcnt_realloc, handle_not_below, if_false, Nat.add_sub_cancel, hb,
    genuine_passes check b r hg, libc_realloc, if_true, hreq]

/-- The header check fails on a block whose sentinel is not the constant. -/
theorem magicOk_mismatch (b : Block) (v : Int) (hv : b.loadMagic = some v)
    (hne : uintOfInt v ≠ MAGIC) : magicOk b = some false := by
  simp [magicOk, hv, hne]

/-! ## C1: release -/

/-- C1: on a live block (refcount `r ≥ 1`) `refcnt_unref` observes `r` and
stores `r - 1`.  When `r = 1` the call frees the whole region: one `free` on
the block start is recorded and the block is gone.  When `r > 1` the block
stays, with refcount `r - 1`, and no allocator call is made.  Other regions
are untouched in both cases. -/
theorem refcnt_unref_decrements (check : Bool) (m : Mem) (base : Addr) (b : Block) (r : Nat)
    (hb : m.blocks base = some b) (hg : Genuine check b r) (hr : 1 ≤ r) :
    atomic_fetch_sub check b 1 = some (r, { b with refcount := some (r - 1) }) ∧
    (r = 1 → ∃ m1, refcnt_unref check m (base + offsetofData check) = Outcome.ok () m1 ∧
        m1.blocks base = none ∧ m1.calls = m.calls ++ [LibcCall.free base] ∧
        ∀ a, a ≠ base → m1.blocks a = m.blocks a) ∧
    (1 < r → ∃ m1, refcnt_unref check m (base + offsetofData check) = Outcome.ok () m1 ∧
        m1.blocks base = some { b with refcount := some (r - 1) } ∧ m1.calls = m.calls ∧
        ∀ a, a ≠ base → m1.blocks a = m.blocks a) := by
  have hlt : r < UINT_MOD := hg.2.2.1
  have hsub : (r + (UINT_MOD - 1)) % UINT_MOD = r - 1 := by
    rw [UINT_MOD_eq] at hlt ⊢; omega
  refine ⟨?_, ?_, ?_⟩
  · rw [fetch_sub_genuine check b r 1 hg]
    have : 1 % UINT_MOD = 1 := by rw [UINT_MOD_eq]
    rw [this, hsub]
  · intro h1
    subst h1
    refine ⟨_, refcnt_unref_last check m base b hb hg, ?_, ?_, ?_⟩
    · simp [Mem.set]
    · rfl
    · intro a ha
      simp [Mem.set, Mem.log, ha]
  · intro h1
    refine ⟨_, refcnt_unref_keep check m base b r hb hg (by omega), ?_, ?_, ?_⟩
    · simp [Mem.set, hsub]
    · rfl
    · intro a ha
      simp [Mem.set, ha]

/-- Witness for C1 at the last owner of the "Hello" block. -/
theorem refcnt_unref_decrements_witness :
    atomic_fetch_sub true (helloBlock 1) 1
      = some (1, { helloBlock 1 with refcount := some (1 - 1) }) :=
  (refcnt_unref_decrements true (helloMem 1) 16 (helloBlock 1) 1
    (by decide) (by decide) (by decide)).1

/-! ## C2: duplicate -/

/-- C2, as stated, fails at `UINT_MAX`: a live block whose refcount is
4294967295 has refcount 0 after `refcnt_ref`, not 4294967296. -/
theorem refcnt_ref_wraps_at_uint_max :
    maxMem.blocks 16 = some maxBlock ∧ Genuine false maxBlock 4294967295 ∧
    (refcnt_ref false maxMem 20).value = some 20 ∧
    ((refcnt_ref false maxMem 20).blockAt 16).bind Block.refcount = some 0 ∧
    ((refcnt_ref false maxMem 20).blockAt 16).bind Block.refcount ≠ some (4294967295 + 1) := by
  decide

/-- C2 (amended): on a live block `refcnt_ref` returns the handle it was given
and stores the refcount plus one modulo `UINT_MAX + 1`, which is exactly one
more whenever the refcount is below `UINT_MAX`.  Nothing else of the block
changes, no allocator call is made and no other region is touched. -/
theorem refcnt_ref_increments (check : Bool) (m : Mem) (base : Addr) (b : Block) (r : Nat)
    (hb : m.blocks base = some b) (hg : Genuine check b r) :
    ∃ m1, refcnt_ref check m (base + offsetofData check)
        = Outcome.ok (base + offsetofData check) m1 ∧
      m1.blocks base = some { b with refcount := some ((r + 1) % UINT_MOD) } ∧
      (r + 1 < UINT_MOD → m1.blocks base = some { b with refcount := some (r + 1) }) ∧
      m1.calls = m.calls ∧ ∀ a, a ≠ base → m1.blocks a = m.blocks a := by
  refine ⟨_, refcnt_ref_genuine check m base b r hb hg, ?_, ?_, ?_, ?_⟩
  · simp [Mem.set]
  · intro hlt
    simp [Mem.set, Nat.mod_eq_of_lt hlt]
  · rfl
  · intro a ha
    simp [Mem.set, ha]

/-- Witness for C2 (amended) on the "Hello" block held by one owner. -/
theorem refcnt_ref_increments_witness :
    ∃ m1, refcnt_ref true (helloMem 1) (16 + offsetofData true)
        = Outcome.ok (16 + offsetofData true) m1 ∧
      m1.blocks 16 = some { helloBlock 1 with refcount := some ((1 + 1) % UINT_MOD) } ∧
      (1 + 1 < UINT_MOD →
        m1.blocks 16 = some { helloBlock 1 with refcount := some (1 + 1) }) ∧
      m1.calls = (helloMem 1).calls ∧ ∀ a, a ≠ 16 → m1.blocks a = (helloMem 1).blocks a :=
  refcnt_ref_increments true (helloMem 1) 16 (helloBlock 1) 1 (by decide) (by decide)

/-! ## C3: create -/

/-- C3, as stated, fails when `sizeof(_refcnt) + len` wraps around `SIZE_MAX`:
for `len = SIZE_MAX` the request is 7 bytes and the allocator satisfies it with
the region at 16.  `refcnt_malloc` returns the handle 24, which lies behind the
end of the 7-byte region: the region holds the sentinel, no refcount (the
store of the refcount at bytes 4..7 runs past its end) and no payload byte,
let alone room for `SIZE_MAX` bytes. -/
theorem refcnt_malloc_request_wraps :
    (sizeofRefcnt true + 18446744073709551615) % SIZE_MOD = 7 ∧
    (libc_malloc true 16 Mem.empty 7).1 = 16 ∧
    (refcnt_malloc true 16 Mem.empty 18446744073709551615).value = some 24 ∧
    (refcnt_malloc true 16 Mem.empty 18446744073709551615).blockAt 16
      = some { size := 7, magic := some (intOfUInt MAGIC), refcount := none, data := [] } ∧
    (refcnt_malloc true 16 Mem.empty 18446744073709551615).heap.overruns = [16] ∧
    16 + 7 < 24 := by
  decide

/-- C3 (amended): when `sizeof(_refcnt) + len` does not exceed `SIZE_MAX` and the
allocator answers a region, `refcnt_malloc` returns the non-null address
`region + offsetof(_refcnt, data)`, which lies behind the header; the region
holds `sizeof(_refcnt) + len` bytes, refcount 1, the sentinel `0xdeadbeef`
(as an `int`) when `REFCNT_CHECK` is defined, and `len` payload bytes.  The
block passes the header check, and no other region is touched. -/
theorem refcnt_malloc_creates (check : Bool) (ans : Addr) (m : Mem) (len : Nat)
    (ha : ans ≠ NULL) (hfit : sizeofRefcnt check + len < SIZE_MOD) :
    ∃ m1, refcnt_malloc check ans m len = Outcome.ok (ans + offsetofData check) m1 ∧
      ans + offsetofData check ≠ NULL ∧
      ans + sizeofRefcnt check = ans + offsetofData check ∧
      ans < ans + offsetofData check ∧
      m1.blocks ans = some
        { size := sizeofRefcnt check + len,
          magic := if check then some (intOfUInt MAGIC) else none,
          refcount := some 1,
          data := List.replicate len none } ∧
      (check = true → uintOfInt (intOfUInt MAGIC) = MAGIC) ∧
      Genuine check (freshBlock check (List.replicate len none)) 1 ∧
      m1.calls = m.calls ++ [LibcCall.malloc (sizeofRefcnt check + len)] ∧
      ∀ a, a ≠ ans → m1.blocks a = m.blocks a := by
  refine ⟨_, refcnt_malloc_ok check ans m len ha hfit, ?_, ?_, ?_, ?_, ?_, ?_, ?_, ?_⟩
  · cases check <;> simp [offsetofData, NULL]
  · cases check <;> rfl
  · cases check <;> simp [offsetofData]
  · simp [Mem.set, freshBlock]
  · intro _; decide
  · cases check
    · simp [Genuine, freshBlock, sizeofRefcnt, UINT_MOD_eq]
    · refine ⟨by simp [freshBlock], rfl, by simp [UINT_MOD_eq], fun _ => ?_⟩
      have hconv : uintOfInt (intOfUInt MAGIC) = MAGIC := by decide
      have h4 : 4 ≤ 8 + len := by omega
      simp [magicOk, Block.loadMagic, freshBlock, sizeofRefcnt, hconv, h4]
  · rfl
  · intro a h
    simp [Mem.set, Mem.log, h]

/-- Witness for C3 (amended): a 5-byte block on the empty heap. -/
theorem refcnt_malloc_creates_witness :
    ∃ m1, refcnt_malloc true 16 Mem.empty 5 = Outcome.ok (16 + offsetofData true) m1 ∧
      16 + offsetofData true ≠ NULL ∧
      16 + sizeofRefcnt true = 16 + offsetofData true ∧
      16 < 16 + offsetofData true ∧
      m1.blocks 16 = some
        { size := sizeofRefcnt true + 5,
          magic := if true then some (intOfUInt MAGIC) else none,
          refcount := some 1,
          data := List.replicate 5 none } ∧
      (true = true → uintOfInt (intOfUInt MAGIC) = MAGIC) ∧
      Genuine true (freshBlock true (List.replicate 5 none)) 1 ∧
      m1.calls = Mem.empty.calls ++ [LibcCall.malloc (sizeofRefcnt true + 5)] ∧
      ∀ a, a ≠ 16 → m1.blocks a = Mem.empty.blocks a :=
  refcnt_malloc_creates true 16 Mem.empty 5 (by decide) (by decide)

/-! ## C5: duplicateString -/

/-- C5: for a text without zero byte, followed by its terminator, whose
request `sizeof(_refcnt) + length + 1` is representable in `size_t`,
`refcnt_strdup` returns (when the allocator answers a region) a handle to a
new block with refcount 1 whose payload has `length + 1` bytes: the bytes of
the text in order, then one byte equal to 0. -/
theorem refcnt_strdup_copies (check : Bool) (ans : Addr) (m : Mem) (text rest : List Nat)
    (hz : ∀ c ∈ text, c ≠ 0) (ha : ans ≠ NULL)
    (hfit : sizeofRefcnt check + text.length + 1 < SIZE_MOD) :
    ∃ m1 b1, refcnt_strdup check ans m (text ++ 0 :: rest)
        = Outcome.ok (ans + offsetofData check) m1 ∧
      m1.blocks ans = some b1 ∧
      b1.refcount = some 1 ∧
      b1.data = text.map some ++ [some 0] ∧
      b1.data.length = text.length + 1 ∧
      b1.size = sizeofRefcnt check + (text.length + 1) ∧
      Genuine check b1 1 ∧
      m1.calls = m.calls ++ [LibcCall.malloc (sizeofRefcnt check + text.length + 1)] ∧
      ∀ a, a ≠ ans → m1.blocks a = m.blocks a := by
  refine ⟨_, freshBlock check (text.map some ++ [some 0]),
    refcnt_strdup_ok check ans m text rest hz ha hfit, ?_, rfl, rfl, ?_, ?_, ?_, rfl, ?_⟩
  · simp [Mem.set]
  · simp [freshBlock]
  · simp [freshBlock]
  · cases check
    · simp [Genuine, freshBlock, sizeofRefcnt, UINT_MOD_eq]
    · refine ⟨by simp [freshBlock], rfl, by simp [UINT_MOD_eq], fun _ => ?_⟩
      have hconv : uintOfInt (intOfUInt MAGIC) = MAGIC := by decide
      have h4 : 4 ≤ 8 + (text.length + 1) := by omega
      simp [magicOk, Block.loadMagic, freshBlock, sizeofRefcnt, hconv, h4]
  · intro a h
    simp [Mem.set, Mem.log, h]

/-- Witness for C5: `refcnt_strdup("Hello")` yields the 6 payload bytes
'H','e','l','l','o',0. -/
theorem refcnt_strdup_hello :
    ∃ m1 b1, refcnt_strdup true 16 Mem.empty ([72, 101, 108, 108, 111] ++ 0 :: [])
        = Outcome.ok (16 + offsetofData true) m1 ∧
      m1.blocks 16 = some b1 ∧
      b1.refcount = some 1 ∧
      b1.data = [72, 101, 108, 108, 111].map some ++ [some 0] ∧
      b1.data.length = [72, 101, 108, 108, 111].length + 1 ∧
      b1.size = sizeofRefcnt true + ([72, 101, 108, 108, 111].length + 1) ∧
      Genuine true b1 1 ∧
      m1.calls = Mem.empty.calls
        ++ [LibcCall.malloc (sizeofRefcnt true + [72, 101, 108, 108, 111].length + 1)] ∧
      ∀ a, a ≠ 16 → m1.blocks a = Mem.empty.blocks a :=
  refcnt_strdup_copies true 16 Mem.empty [72, 101, 108, 108, 111] [] (by decide) (by decide)
    (by decide)

/-! ## C6: resize -/

theorem resized_fits (check : Bool) (b : Block) (r len : Nat) (hg : Genuine check b r)
    (hw : WellSized check b) :
    (resized check b (sizeofRefcnt check + len)).size = sizeofRefcnt check + len ∧
    (resized check b (sizeofRefcnt check + len)).magic = b.magic ∧
    (resized check b (sizeofRefcnt check + len)).refcount = b.refcount ∧
    (resized check b (sizeofRefcnt check + len)).data.length = len ∧
    (resized check b (sizeofRefcnt check + len)).data.take (min b.data.length len)
      = b.data.take (min b.data.length len) := by
  have hs := hg.1
  have hin := genuine_inBounds check b r hg
  unfold WellSized at hw
  have hmin : min b.size (sizeofRefcnt check + len) - sizeofRefcnt check
      = min b.data.length len := by
    rw [hw]; omega
  have hrc : offsetofRefcount check + 4 ≤ min b.size (sizeofRefcnt check + len) := by
    have : offsetofRefcount check + 4 = sizeofRefcnt check := by cases check <;> rfl
    omega
  have h4 : 4 ≤ min b.size (sizeofRefcnt check + len) := by
    have : 4 ≤ sizeofRefcnt check := by cases check <;> simp [sizeofRefcnt]
    omega
  refine ⟨rfl, ?_, ?_, ?_, ?_⟩
  · simp [resized, h4]
  · simp [resized, hrc]
  · simp only [resized, hmin, Nat.add_sub_cancel_left, List.length_append, List.length_take,
      List.length_replicate]
    omega
  · simp only [resized, hmin, Nat.add_sub_cancel_left]
    rw [List.take_append_of_le_length (by simp)]
    simp [List.take_take]

/-- C6, as stated, fails when `sizeof(_refcnt) + len` wraps around `SIZE_MAX`:
resizing the "Hello" block to `SIZE_MAX` payload bytes asks `realloc` for 7
bytes; the region returned has 7 bytes, not `8 + SIZE_MAX`, it has no payload
byte left and its refcount field is cut off. -/
theorem refcnt_realloc_request_wraps :
    (helloMem 1).blocks 16 = some (helloBlock 1) ∧ Genuine true (helloBlock 1) 1 ∧
    (sizeofRefcnt true + 18446744073709551615) % SIZE_MOD = 7 ∧
    (refcnt_realloc true 32 (helloMem 1) 24 18446744073709551615).value = some 40 ∧
    (refcnt_realloc true 32 (helloMem 1) 24 18446744073709551615).blockAt 32
      = some { size := 7, magic := some (-559038737), refcount := none, data := [] } ∧
    (7 : Nat) ≠ sizeofRefcnt true + 18446744073709551615 ∧
    (none : Option Nat) ≠ (helloBlock 1).refcount := by
  decide

/-- C6 (amended): on a live block whose payload has `b.data.length` bytes, when
`sizeof(_refcnt) + len` does not exceed `SIZE_MAX` and `realloc` answers a
region, `refcnt_realloc` returns the handle of a block of
`sizeof(_refcnt) + len` bytes with `len` payload bytes, whose first
`min old len` payload bytes are those of the original, and whose refcount and
sentinel are unchanged.  One `realloc` call is recorded and the old region is
gone when the block moved. -/
theorem refcnt_realloc_preserves (check : Bool) (ans : Addr) (m : Mem) (base : Addr)
    (b : Block) (r len : Nat) (hb : m.blocks base = some b) (hg : Genuine check b r)
    (hw : WellSized check b) (ha : ans ≠ NULL) (hfit : sizeofRefcnt check + len < SIZE_MOD) :
    ∃ m1 b1, refcnt_realloc check ans m (base + offsetofData check) len
        = Outcome.ok (ans + offsetofData check) m1 ∧
      m1.blocks ans = some b1 ∧
      b1.size = sizeofRefcnt check + len ∧
      b1.data.length = len ∧
      b1.data.take (min b.data.length len) = b.data.take (min b.data.length len) ∧
      b1.refcount = b.refcount ∧
      b1.magic = b.magic ∧
      Genuine check b1 r ∧
      m1.calls = m.calls ++ [LibcCall.realloc base (sizeofRefcnt check + len)] ∧
      (ans ≠ base → m1.blocks base = none) := by
  have hmod : (sizeofRefcnt check + len) % SIZE_MOD = sizeofRefcnt check + len :=
    Nat.mod_eq_of_lt hfit
  obtain ⟨h1, h2, h3, h4, h5⟩ := resized_fits check b r len hg hw
  refine ⟨_, resized check b (sizeofRefcnt check + len),
    refcnt_realloc_moved check ans m base b r len hb hg ha, ?_, h1, h4, h5, h3, h2, ?_, ?_, ?_⟩
  · simp [Mem.set, hmod]
  · refine ⟨by rw [h1]; omega, by rw [h3]; exact hg.2.1, hg.2.2.1, fun hc => ?_⟩
    have hm := hg.2.2.2 hc
    have hs := hg.1
    subst hc
    have hle : 4 ≤ b.size := by simp [sizeofRefcnt] at hs; omega
    have hle1 : 4 ≤ (resized true b (sizeofRefcnt true + len)).size := by
      rw [h1]; simp [sizeofRefcnt]; omega
    simp only [magicOk, Block.loadMagic, hle, hle1, if_true, h2] at hm ⊢
    exact hm
  · simp [Mem.set, Mem.log, hmod]
  · intro hne
    have : base ≠ ans := fun e => hne e.symm
    simp [Mem.set, this]

/-- Witness for C6 (amended): the "Hello" block shrunk to 3 payload bytes. -/
theorem refcnt_realloc_preserves_witness :
    ∃ m1 b1, refcnt_realloc true 32 (helloMem 1) (16 + offsetofData true) 3
        = Outcome.ok (32 + offsetofData true) m1 ∧
      m1.blocks 32 = some b1 ∧
      b1.size = sizeofRefcnt true + 3 ∧
      b1.data.length = 3 ∧
      b1.data.take (min (helloBlock 1).data.length 3)
        = (helloBlock 1).data.take (min (helloBlock 1).data.length 3) ∧
      b1.refcount = (helloBlock 1).refcount ∧
      b1.magic = (helloBlock 1).magic ∧
      Genuine true b1 1 ∧
      m1.calls = (helloMem 1).calls ++ [LibcCall.realloc 16 (sizeofRefcnt true + 3)] ∧
      (32 ≠ 16 → m1.blocks 16 = none) :=
  refcnt_realloc_preserves true 32 (helloMem 1) 16 (helloBlock 1) 1 3
    (by decide) (by decide) (by decide) (by decide) (by decide)

/-! ## C8: validation -/

/-- C8: with `REFCNT_CHECK` defined, on every pointer whose recovered header
holds a sentinel other than `0xdeadbeef`, `refcnt_ref`, `refcnt_unref` and
`refcnt_realloc` stop in the failed assertion (no heap is produced: nothing was
counted, freed or reallocated).  With `REFCNT_CHECK` undefined none of the
three ever stops in an assertion. -/
theorem invalid_sentinel_asserts :
    (∀ (m : Mem) (base : Addr) (b : Block) (v : Int),
      m.blocks base = some b → b.loadMagic = some v → uintOfInt v ≠ MAGIC →
      refcnt_ref true m (base + offsetofData true) = Outcome.assertFail ∧
      refcnt_unref true m (base + offsetofData true) = Outcome.assertFail ∧
      ∀ (ans : Addr) (len : Nat),
        refcnt_realloc true ans m (base + offsetofData true) len = Outcome.assertFail) ∧
    (∀ (m : Mem) (ptr : Addr),
      (refcnt_ref false m ptr).isAssertFail = false ∧
      (refcnt_unref false m ptr).isAssertFail = false ∧
      ∀ (ans : Addr) (len : Nat), (refcnt_realloc false ans m ptr len).isAssertFail = false) := by
  constructor
  · intro m base b v hb hv hne
    have hbad := magicOk_mismatch b v hv hne
    refine ⟨?_, ?_, fun ans len => ?_⟩
    · simp only [refcnt_ref, handle_not_below, if_false, Nat.add_sub_cancel, hb, if_true, hbad]
    · simp only [refcnt_unref, handle_not_below, if_false, Nat.add_sub_cancel, hb, if_true, hbad]
    · simp only [refcnt_realloc, handle_not_below, if_false, Nat.add_sub_cancel, hb, if_true,
        hbad]
  · intro m ptr
    refine ⟨?_, ?_, fun ans len => ?_⟩
    · unfold refcnt_ref
      split
      · rfl
      · simp only [Bool.false_eq_true, if_false]
        split
        · rfl
        · split <;> rfl
    · unfold refcnt_unref
      split
      · rfl
      · simp only [Bool.false_eq_true, if_false]
        split
        · rfl
        · split
          · rfl
          · split
            · split <;> rfl
            · rfl
    · unfold refcnt_realloc
      split
      · rfl
      · simp only [Bool.false_eq_true, if_false]
        split
        · rfl
        · split
          · rfl
          · split <;> rfl

/-- Witness for C8: the "Hello" block with its sentinel overwritten by 0. -/
theorem invalid_sentinel_asserts_witness :
    refcnt_ref true corruptMem (16 + offsetofData true) = Outcome.assertFail ∧
    refcnt_unref true corruptMem (16 + offsetofData true) = Outcome.assertFail ∧
    ∀ (ans : Addr) (len : Nat),
      refcnt_realloc true ans corruptMem (16 + offsetofData true) len = Outcome.assertFail :=
  invalid_sentinel_asserts.1 corruptMem 16 corruptBlock 0 (by decide) (by decide) (by decide)

/-! ## Runs of ownership calls -/

theorem genuine_withCount (check : Bool) (b : Block) (r v : Nat) (hg : Genuine check b r)
    (hv : v < UINT_MOD) : Genuine check (b.withCount v) v :=
  genuine_setRefcount check b r v hg hv

theorem withCount_withCount (b : Block) (v w : Nat) :
    (b.withCount v).withCount w = b.withCount w := rfl

theorem withCount_self (check : Bool) (b : Block) (r : Nat) (hg : Genuine check b r) :
    b.withCount r = b := genuine_eta check b r hg

theorem Mem.set_log_set (m : Mem) (a : Addr) (x y : Option Block) (c : LibcCall) :
    ((m.set a x).log c).set a y = (m.log c).set a y := by
  simp only [Mem.set, Mem.log]
  congr 1
  funext z
  by_cases hz : z = a <;> simp [hz]

theorem mod_lt_uint (n : Nat) : n % UINT_MOD < UINT_MOD :=
  Nat.mod_lt _ (by rw [UINT_MOD_eq]; decide)

/-- One `refcnt_ref` on a block that holds the count `c` modulo `UINT_MAX + 1`. -/
theorem ref_counted (check : Bool) (m : Mem) (base : Addr) (b : Block) (r c : Nat)
    (hg : Genuine check b r) :
    refcnt_ref check (m.set base (some (b.withCount (c % UINT_MOD)))) (base + offsetofData check)
      = Outcome.ok (base + offsetofData check)
          (m.set base (some (b.withCount ((c + 1) % UINT_MOD)))) := by
  have hg1 := genuine_withCount check b r (c % UINT_MOD) hg (mod_lt_uint c)
  rw [refcnt_ref_genuine check _ base _ _ (Mem.set_blocks_same m base _) hg1, Mem.set_set]
  have : (c % UINT_MOD + 1) % UINT_MOD = (c + 1) % UINT_MOD := by
    rw [UINT_MOD_eq]; omega
  simp only [Block.withCount, this]

/-- One `refcnt_unref` that observes a count other than 1. -/
theorem unref_counted (check : Bool) (m : Mem) (base : Addr) (b : Block) (r c : Nat)
    (hg : Genuine check b r) (hc : 1 ≤ c) (h1 : c % UINT_MOD ≠ 1) :
    refcnt_unref check (m.set base (some (b.withCount (c % UINT_MOD))))
        (base + offsetofData check)
      = Outcome.ok () (m.set base (some (b.withCount ((c - 1) % UINT_MOD)))) := by
  have hg1 := genuine_withCount check b r (c % UINT_MOD) hg (mod_lt_uint c)
  rw [refcnt_unref_keep check _ base _ _ (Mem.set_blocks_same m base _) hg1 h1, Mem.set_set]
  have : (c % UINT_MOD + (UINT_MOD - 1)) % UINT_MOD = (c - 1) % UINT_MOD := by
    rw [UINT_MOD_eq]; omega
  simp only [Block.withCount, this]

/-- One `refcnt_unref` that observes the count 1. -/
theorem unref_counted_last (check : Bool) (m : Mem) (base : Addr) (b : Block) (r : Nat)
    (hg : Genuine check b r) :
    refcnt_unref check (m.set base (some (b.withCount 1))) (base + offsetofData check)
      = Outcome.ok () ((m.log (LibcCall.free base)).set base none) := by
  have hg1 := genuine_withCount check b r 1 hg (by rw [UINT_MOD_eq]; decide)
  rw [refcnt_unref_last check _ base _ (Mem.set_blocks_same m base _) hg1, Mem.set_log_set]

theorem mem_as_counted (check : Bool) (m : Mem) (base : Addr) (b : Block) (r : Nat)
    (hb : m.blocks base = some b) (hg : Genuine check b r) :
    m = m.set base (some (b.withCount (r % UINT_MOD))) := by
  rw [Nat.mod_eq_of_lt hg.2.2.1, withCount_self check b r hg, Mem.set_self m base _ hb]

theorem refThenUnref_genuine (check : Bool) (m : Mem) (base : Addr) (b : Block) (r : Nat)
    (hb : m.blocks base = some b) (hg : Genuine check b r) (hr : 1 ≤ r) :
    refThenUnref check m (base + offsetofData check) = Outcome.ok () m := by
  have hlt := hg.2.2.1
  have hm := mem_as_counted check m base b r hb hg
  have hne : (r + 1) % UINT_MOD ≠ 1 := by rw [UINT_MOD_eq] at hlt ⊢; omega
  unfold refThenUnref
  rw [hm, ref_counted check m base b r r hg]
  simp only []
  rw [unref_counted check m base b r (r + 1) hg (by omega) hne, Nat.add_sub_cancel]

theorem testLoop_genuine (check : Bool) (m : Mem) (base : Addr) (b : Block) (r : Nat)
    (hb : m.blocks base = some b) (hg : Genuine check b r) (hr : 1 ≤ r) (n : Nat) :
    testLoop check n m (base + offsetofData check) = Outcome.ok () m := by
  induction n with
  | zero => rfl
  | succ k ih =>
    simp only [testLoop, refThenUnref_genuine check m base b r hb hg hr, ih]

theorem runOps_cons (check : Bool) (m : Mem) (h : Addr) (op : Op) (ops : List Op) :
    runOps check m h (op :: ops)
      = match execOp check m h op with
        | Outcome.ok h1 m1 => runOps check m1 h1 ops
        | Outcome.assertFail => Outcome.assertFail
        | Outcome.undefined => Outcome.undefined := rfl

theorem execOp_ref_counted (check : Bool) (m : Mem) (base : Addr) (b : Block) (r c : Nat)
    (hg : Genuine check b r) :
    execOp check (m.set base (some (b.withCount (c % UINT_MOD)))) (base + offsetofData check)
        Op.ref
      = Outcome.ok (base + offsetofData check)
          (m.set base (some (b.withCount ((c + 1) % UINT_MOD)))) :=
  ref_counted check m base b r c hg

theorem execOp_unref_counted (check : Bool) (m : Mem) (base : Addr) (b : Block) (r c : Nat)
    (hg : Genuine check b r) (hc : 1 ≤ c) (h1 : c % UINT_MOD ≠ 1) :
    execOp check (m.set base (some (b.withCount (c % UINT_MOD)))) (base + offsetofData check)
        Op.unref
      = Outcome.ok (base + offsetofData check)
          (m.set base (some (b.withCount ((c - 1) % UINT_MOD)))) := by
  simp only [execOp, unref_counted check m base b r c hg hc h1]

theorem execOp_unref_last (check : Bool) (m : Mem) (base : Addr) (b : Block) (r : Nat)
    (hg : Genuine check b r) :
    execOp check (m.set base (some (b.withCount 1))) (base + offsetofData check) Op.unref
      = Outcome.ok (base + offsetofData check) ((m.log (LibcCall.free base)).set base none) := by
  simp only [execOp, unref_counted_last check m base b r hg]

/-- `n` duplicates in a row add `n` to the count (modulo `UINT_MAX + 1`). -/
theorem run_refs (check : Bool) (base : Addr) (b : Block) (r : Nat) (hg : Genuine check b r)
    (n : Nat) : ∀ (m : Mem) (c : Nat) (ops : List Op),
    runOps check (m.set base (some (b.withCount (c % UINT_MOD)))) (base + offsetofData check)
        (List.replicate n Op.ref ++ ops)
      = runOps check (m.set base (some (b.withCount ((c + n) % UINT_MOD))))
          (base + offsetofData check) ops := by
  induction n with
  | zero => intro m c ops; rfl
  | succ k ih =>
    intro m c ops
    rw [List.replicate_succ, List.cons_append, runOps_cons,
      execOp_ref_counted check m base b r c hg]
    simp only []
    rw [ih m (c + 1) ops]
    have : c + 1 + k = c + (k + 1) := by omega
    rw [this]

/-- `j` releases in a row, none of which observes 1, subtract `j` from the count. -/
theorem run_unrefs (check : Bool) (base : Addr) (b : Block) (r : Nat) (hg : Genuine check b r)
    (j : Nat) : ∀ (m : Mem) (c : Nat) (ops : List Op), c ≤ UINT_MOD → j < c →
    runOps check (m.set base (some (b.withCount (c % UINT_MOD)))) (base + offsetofData check)
        (List.replicate j Op.unref ++ ops)
      = runOps check (m.set base (some (b.withCount ((c - j) % UINT_MOD))))
          (base + offsetofData check) ops := by
  induction j with
  | zero => intro m c ops _ _; rfl
  | succ k ih =>
    intro m c ops hc hj
    have hne : c % UINT_MOD ≠ 1 := by rw [UINT_MOD_eq] at hc ⊢; omega
    rw [List.replicate_succ, List.cons_append, runOps_cons,
      execOp_unref_counted check m base b r c hg (by omega) hne]
    simp only []
    rw [ih m (c - 1) ops (by omega) (by omega)]
    have : c - 1 - k = c - (k + 1) := by omega
    rw [this]

/-- The release that observes 1 frees the region. -/
theorem run_unref_last (check : Bool) (m : Mem) (base : Addr) (b : Block) (r : Nat)
    (hg : Genuine check b r) (ops : List Op) :
    runOps check (m.set base (some (b.withCount 1))) (base + offsetofData check)
        (Op.unref :: ops)
      = runOps check ((m.log (LibcCall.free base)).set base none)
          (base + offsetofData check) ops := by
  rw [runOps_cons, execOp_unref_last check m base b r hg]

/-- Any ownership call on a freed block is undefined. -/
theorem execOp_freed (check : Bool) (m : Mem) (base : Addr) (op : Op)
    (hb : m.blocks base = none) :
    execOp check m (base + offsetofData check) op = Outcome.undefined := by
  cases op <;>
    simp only [execOp, refcnt_ref, refcnt_unref, handle_not_below, if_false,
      Nat.add_sub_cancel, hb]

/-! ## C4: N duplicates, N + 1 releases -/

/-- C4, as stated, fails at `N = 2^32`: after 4294967296 duplicates of a fresh
handle the 32-bit refcount is 1 again, so the first release already frees the
region, and the second release runs on a freed block. -/
theorem first_release_frees_after_wrap :
    (helloMem 1).blocks 16 = some (helloBlock 1) ∧ Genuine true (helloBlock 1) 1 ∧
    (runOps true (helloMem 1) 24 (List.replicate 4294967296 Op.ref)).blockAt 16
      = some (helloBlock 1) ∧
    (runOps true (helloMem 1) 24
      (List.replicate 4294967296 Op.ref ++ List.replicate 1 Op.unref)).blockAt 16 = none ∧
    (runOps true (helloMem 1) 24
      (List.replicate 4294967296 Op.ref ++ List.replicate 1 Op.unref)).callsMade
        = [LibcCall.malloc 14, LibcCall.free 16] ∧
    (runOps true (helloMem 1) 24
      (List.replicate 4294967296 Op.ref ++ List.replicate 2 Op.unref)).isUndefined = true := by
  have hb : (helloMem 1).blocks 16 = some (helloBlock 1) := by decide
  have hg : Genuine true (helloBlock 1) 1 := by decide
  have hm := mem_as_counted true (helloMem 1) 16 (helloBlock 1) 1 hb hg
  have hrefs := run_refs true 16 (helloBlock 1) 1 hg 4294967296 (helloMem 1) 1
  have hwrap : (1 + 4294967296) % UINT_MOD = 1 := by rw [UINT_MOD_eq]
  have h24 : (16 : Addr) + offsetofData true = 24 := rfl
  rw [← hm, hwrap, h24] at hrefs
  refine ⟨hb, hg, ?_, ?_, ?_, ?_⟩
  · have h := hrefs []
    rw [List.append_nil] at h
    rw [h]
    simp [runOps, Outcome.blockAt, Mem.set, Block.withCount, helloBlock]
  · rw [hrefs]
    have h := run_unref_last true (helloMem 1) 16 (helloBlock 1) 1 hg []
    rw [h24] at h
    simp only [List.replicate, h]
    simp [runOps, Outcome.blockAt, Mem.set]
  · rw [hrefs]
    have h := run_unref_last true (helloMem 1) 16 (helloBlock 1) 1 hg []
    rw [h24] at h
    simp only [List.replicate, h]
    simp [runOps, Outcome.callsMade, Mem.set, Mem.log, helloMem]
  · rw [hrefs]
    have h := run_unref_last true (helloMem 1) 16 (helloBlock 1) 1 hg [Op.unref]
    rw [h24] at h
    simp only [List.replicate, h]
    have hfreed : (((helloMem 1).log (LibcCall.free 16)).set 16 none).blocks 16 = none := by
      simp [Mem.set]
    have hu := execOp_freed true _ 16 Op.unref hfreed
    rw [h24] at hu
    simp only [runOps, hu, Outcome.isUndefined]

/-- C4 (amended): for every `N < 2^32`, on a block that has just been created
(refcount 1), `N` duplicates followed by `j ≤ N` releases leave the block live
with refcount `N + 1 - j` (modulo `UINT_MAX + 1`) and no allocator call
recorded; before the last release the refcount is 1, and the `(N+1)`-th release
frees the region, so that the whole run records exactly one `free`, on the
block start. -/
theorem dups_then_releases_free_once (check : Bool) (m : Mem) (base : Addr) (b : Block)
    (N : Nat) (hb : m.blocks base = some b) (hg : Genuine check b 1) (hN : N < UINT_MOD) :
    (∀ j, j ≤ N → ∃ mj,
      runOps check m (base + offsetofData check)
          (List.replicate N Op.ref ++ List.replicate j Op.unref)
        = Outcome.ok (base + offsetofData check) mj ∧
      mj.blocks base = some (b.withCount ((N + 1 - j) % UINT_MOD)) ∧
      (j = N → mj.blocks base = some (b.withCount 1)) ∧
      mj.calls = m.calls ∧ countFrees mj.calls = countFrees m.calls) ∧
    (∃ m2,
      runOps check m (base + offsetofData check)
          (List.replicate N Op.ref ++ List.replicate (N + 1) Op.unref)
        = Outcome.ok (base + offsetofData check) m2 ∧
      m2.blocks base = none ∧ m2.calls = m.calls ++ [LibcCall.free base] ∧
      countFrees m2.calls = countFrees m.calls + 1) := by
  have hm := mem_as_counted check m base b 1 hb hg
  have hrefs : ∀ ops, runOps check m (base + offsetofData check) (List.replicate N Op.ref ++ ops)
      = runOps check (m.set base (some (b.withCount ((1 + N) % UINT_MOD))))
          (base + offsetofData check) ops := by
    intro ops
    have h := run_refs check base b 1 hg N m 1 ops
    rw [← hm] at h
    exact h
  constructor
  · intro j hj
    have h := run_unrefs check base b 1 hg j m (1 + N) [] (by omega) (by omega)
    rw [List.append_nil] at h
    have hidx : 1 + N - j = N + 1 - j := by omega
    refine ⟨m.set base (some (b.withCount ((N + 1 - j) % UINT_MOD))), ?_, ?_, ?_, rfl, rfl⟩
    · rw [hrefs, h, hidx]; rfl
    · simp [Mem.set]
    · intro e
      subst e
      have : (j + 1 - j) % UINT_MOD = 1 := by rw [UINT_MOD_eq]; omega
      rw [Mem.set_blocks_same, this]
  · have h := run_unrefs check base b 1 hg N m (1 + N) [Op.unref] (by omega) (by omega)
    have hone : (1 + N - N) % UINT_MOD = 1 := by rw [UINT_MOD_eq]; omega
    rw [hone, run_unref_last check m base b 1 hg []] at h
    refine ⟨(m.log (LibcCall.free base)).set base none, ?_, ?_, rfl, ?_⟩
    · rw [List.replicate_succ', hrefs, h]; rfl
    · simp [Mem.set]
    · simp [Mem.set, Mem.log, countFrees_append, countFrees]

/-- Witness for C4 (amended): three duplicates of the "Hello" handle, then
four releases. -/
theorem dups_then_releases_free_once_witness :
    ∃ m2,
      runOps true (helloMem 1) (16 + offsetofData true)
          (List.replicate 3 Op.ref ++ List.replicate (3 + 1) Op.unref)
        = Outcome.ok (16 + offsetofData true) m2 ∧
      m2.blocks 16 = none ∧ m2.calls = (helloMem 1).calls ++ [LibcCall.free 16] ∧
      countFrees m2.calls = countFrees (helloMem 1).calls + 1 :=
  (dups_then_releases_free_once true (helloMem 1) 16 (helloBlock 1) 3
    (by decide) (by decide) (by decide)).2

/-! ## C10: a duplicate followed by a release -/

/-- C10: on a live block (refcount `r ≥ 1`) `refcnt_ref` returns the handle it
was given, and `refcnt_unref` of that handle right after restores the heap
exactly as it was: same refcount, payload and sentinel, no allocator call.
The same holds for any number of turns of the loop of `test_thread`. -/
theorem ref_unref_balanced (check : Bool) (m : Mem) (base : Addr) (b : Block) (r : Nat)
    (hb : m.blocks base = some b) (hg : Genuine check b r) (hr : 1 ≤ r) :
    (refcnt_ref check m (base + offsetofData check)).value = some (base + offsetofData check) ∧
    refThenUnref check m (base + offsetofData check) = Outcome.ok () m ∧
    ∀ n, testLoop check n m (base + offsetofData check) = Outcome.ok () m := by
  refine ⟨?_, refThenUnref_genuine check m base b r hb hg hr,
    testLoop_genuine check m base b r hb hg hr⟩
  rw [refcnt_ref_genuine check m base b r hb hg]
  rfl

/-- Witness for C10: the "Hello" block shared by two owners. -/
theorem ref_unref_balanced_witness :
    (refcnt_ref true (helloMem 2) (16 + offsetofData true)).value
      = some (16 + offsetofData true) ∧
    refThenUnref true (helloMem 2) (16 + offsetofData true) = Outcome.ok () (helloMem 2) ∧
    ∀ n, testLoop true n (helloMem 2) (16 + offsetofData true) = Outcome.ok () (helloMem 2) :=
  ref_unref_balanced true (helloMem 2) 16 (helloBlock 2) 2 (by decide) (by decide) (by decide)

/-! ## Interleaved runs -/

theorem total_nil (f : List Op → Int) : total f [] = 0 := rfl

theorem total_cons (f : List Op → Int) (p : List Op) (ps : List (List Op)) :
    total f (p :: ps) = f p + total f ps := by simp [total]

theorem total_set (f : List Op → Int) (q : List Op) :
    ∀ (progs : List (List Op)) (i : Nat) (p : List Op), progs.get? i = some p →
      total f (progs.set i q) = total f progs - f p + f q := by
  intro progs
  induction progs with
  | nil => intro i p h; simp at h
  | cons a as ih =>
    intro i p h
    cases i with
    | zero =>
      simp at h
      subst h
      simp only [List.set_cons_zero, total_cons]
      omega
    | succ k =>
      simp at h
      simp only [List.set_cons_succ, total_cons, ih k p (by simpa using h)]
      omega

theorem total_le_of_get (f : List Op → Int) :
    ∀ (progs : List (List Op)), (∀ p ∈ progs, 0 ≤ f p) →
      ∀ (i : Nat) (p : List Op), progs.get? i = some p → f p ≤ total f progs := by
  intro progs
  induction progs with
  | nil => intro _ i p h; simp at h
  | cons a as ih =>
    intro hpos i p h
    have ha : 0 ≤ f a := hpos a (List.mem_cons_self a as)
    have has : ∀ q ∈ as, 0 ≤ f q := fun q hq => hpos q (List.mem_cons_of_mem a hq)
    have htot : 0 ≤ total f as := by
      clear ih h
      induction as with
      | nil => simp [total]
      | cons c cs ihc =>
        rw [total_cons]
        have := has c (List.mem_cons_self c cs)
        have := ihc (fun q hq => hpos q (by
          rcases List.mem_cons.mp hq with h | h
          · exact h ▸ List.mem_cons_self a (c :: cs)
          · exact List.mem_cons_of_mem a (List.mem_cons_of_mem c h)))
          (fun q hq => has q (List.mem_cons_of_mem c hq))
        omega
    cases i with
    | zero =>
      simp at h
      subst h
      rw [total_cons]; omega
    | succ k =>
      have := ih has k p (by simpa using h)
      rw [total_cons]; omega

theorem total_mono (f g : List Op → Int) (hfg : ∀ p, f p ≤ g p) (progs : List (List Op)) :
    total f progs ≤ total g progs := by
  induction progs with
  | nil => simp [total]
  | cons a as ih =>
    rw [total_cons, total_cons]
    have := hfg a
    omega

theorem total_replicate (f : List Op → Int) (p : List Op) (n : Nat) :
    total f (List.replicate n p) = n * f p := by
  induction n with
  | zero => simp [total]
  | succ k ih =>
    rw [List.replicate_succ, total_cons, ih]
    push_cast
    ring

theorem bal_nonneg_of_safe (p : List Op) (h : Safe p) : 0 ≤ bal p := by
  cases p with
  | nil => simp [bal]
  | cons op rest => have := h.1; omega

theorem nil_of_safe_of_bal_zero (p : List Op) (h : Safe p) (h0 : bal p = 0) : p = [] := by
  cases p with
  | nil => rfl
  | cons op rest => have := h.1; omega

theorem bal_le_peak (p : List Op) : bal p ≤ peak p := by
  cases p with
  | nil => simp [bal, peak]
  | cons op rest => simp [peak]

theorem peak_tail_le (op : Op) (p : List Op) : peak p ≤ peak (op :: p) := by
  simp [peak]

theorem total_eq_zero_all (progs : List (List Op)) (hs : ∀ p ∈ progs, Safe p)
    (h0 : total bal progs = 0) : ∀ p ∈ progs, p = [] := by
  intro p hp
  obtain ⟨i, hi⟩ := List.get?_of_mem hp
  have hle := total_le_of_get bal progs (fun q hq => bal_nonneg_of_safe q (hs q hq)) i p hi
  have := bal_nonneg_of_safe p (hs p hp)
  exact nil_of_safe_of_bal_zero p (hs p hp) (by omega)

/-- One step of any thread keeps the invariant, and never fails. -/
theorem stepThread_inv (check : Bool) (base : Addr) (b : Block) (r : Nat)
    (hg : Genuine check b r) (calls0 : List LibcCall) (s : Sys) (i : Nat)
    (hinv : Inv base b calls0 s) :
    ∃ s1, stepThread check (base + offsetofData check) s i = Run.ok s1 ∧
      Inv base b calls0 s1 := by
  obtain ⟨hsafe, hpeak, hstate⟩ := hinv
  unfold stepThread
  cases hget : s.progs.get? i with
  | none => exact ⟨s, rfl, hsafe, hpeak, hstate⟩
  | some p =>
    cases p with
    | nil => exact ⟨s, rfl, hsafe, hpeak, hstate⟩
    | cons op rest =>
      have hmem : (op :: rest) ∈ s.progs := List.get?_mem hget
      have hsp : Safe (op :: rest) := hsafe _ hmem
      have hbal1 : 1 ≤ bal (op :: rest) := hsp.1
      have hle : bal (op :: rest) ≤ total bal s.progs :=
        total_le_of_get bal s.progs (fun q hq => bal_nonneg_of_safe q (hsafe q hq)) i _ hget
      have hbp : total bal s.progs ≤ total peak s.progs := total_mono bal peak bal_le_peak _
      have hsafe1 : ∀ q ∈ s.progs.set i rest, Safe q := by
        intro q hq
        rcases List.mem_or_eq_of_mem_set hq with h | h
        · exact hsafe q h
        · exact h ▸ hsp.2
      have hpeak1 : total peak (s.progs.set i rest) ≤ (UINT_MOD : Int) := by
        rw [total_set peak rest s.progs i _ hget]
        have := peak_tail_le op rest
        omega
      have hbal_set : total bal (s.progs.set i rest)
          = total bal s.progs - bal (op :: rest) + bal rest :=
        total_set bal rest s.progs i _ hget
      rcases hstate with ⟨hc1, m, hcalls, hmemeq⟩ | ⟨h0, _, _⟩
      · have hcM : (total bal s.progs).toNat ≤ UINT_MOD := by omega
        have hc1n : 1 ≤ (total bal s.progs).toNat := by omega
        cases op with
        | ref =>
          simp only []
          rw [hmemeq, execOp_ref_counted check m base b r _ hg]
          refine ⟨_, rfl, hsafe1, hpeak1, Or.inl ⟨?_, m, hcalls, ?_⟩⟩
          · simp only [hbal_set, bal]; omega
          · have : (total bal (s.progs.set i rest)).toNat = (total bal s.progs).toNat + 1 := by
              simp only [hbal_set, bal]; omega
            simp only [this]
        | unref =>
          simp only []
          by_cases hone : total bal s.progs = 1
          · have h1 : (total bal s.progs).toNat % UINT_MOD = 1 := by
              rw [hone, UINT_MOD_eq]; rfl
            rw [hmemeq, h1, execOp_unref_last check m base b r hg]
            refine ⟨_, rfl, hsafe1, hpeak1, Or.inr ⟨?_, ?_, ?_⟩⟩
            · have hrest := bal_nonneg_of_safe rest hsp.2
              simp only [bal] at hbal1 hle
              simp only [hbal_set, bal]; omega
            · simp [Mem.set]
            · simp [Mem.set, Mem.log, hcalls]
          · have hne : (total bal s.progs).toNat % UINT_MOD ≠ 1 := by
              rw [UINT_MOD_eq] at hcM ⊢; omega
            rw [hmemeq, execOp_unref_counted check m base b r _ hg hc1n hne]
            refine ⟨_, rfl, hsafe1, hpeak1, Or.inl ⟨?_, m, hcalls, ?_⟩⟩
            · have hrest := bal_nonneg_of_safe rest hsp.2
              simp only [bal] at hbal1 hle
              simp only [hbal_set, bal]; omega
            · have : (total bal (s.progs.set i rest)).toNat
                  = (total bal s.progs).toNat - 1 := by
                simp only [hbal_set, bal]; omega
              simp only [this]
      · omega

/-- Every schedule runs to the end and keeps the invariant. -/
theorem runSched_inv (check : Bool) (base : Addr) (b : Block) (r : Nat)
    (hg : Genuine check b r) (calls0 : List LibcCall) (sched : List Nat) :
    ∀ s, Inv base b calls0 s →
      ∃ s1, runSched check (base + offsetofData check) s sched = Run.ok s1 ∧
        Inv base b calls0 s1 := by
  induction sched with
  | nil => intro s h; exact ⟨s, rfl, h⟩
  | cons i rest ih =>
    intro s h
    obtain ⟨s1, hstep, hinv1⟩ := stepThread_inv check base b r hg calls0 s i h
    obtain ⟨s2, hrun, hinv2⟩ := ih s1 hinv1
    refine ⟨s2, ?_, hinv2⟩
    simp only [runSched, hstep, hrun]

/-- What the invariant says at the end of a run. -/
theorem inv_outcome (base : Addr) (b : Block) (calls0 : List LibcCall) (s : Sys)
    (hinv : Inv base b calls0 s) :
    (s.finished → s.mem.blocks base = none ∧ s.mem.calls = calls0 ++ [LibcCall.free base]) ∧
    (¬ s.finished → s.mem.blocks base ≠ none ∧ s.mem.calls = calls0) := by
  obtain ⟨hsafe, _, hstate⟩ := hinv
  constructor
  · intro hfin
    have hz : total bal s.progs = 0 := by
      have : ∀ (ps : List (List Op)), (∀ p ∈ ps, p = []) → total bal ps = 0 := by
        intro ps
        induction ps with
        | nil => intro _; rfl
        | cons a as ih =>
          intro h
          rw [total_cons, ih (fun p hp => h p (List.mem_cons_of_mem a hp)),
            h a (List.mem_cons_self a as)]
          rfl
      exact this s.progs hfin
    rcases hstate with ⟨h1, _⟩ | ⟨_, hb, hc⟩
    · omega
    · exact ⟨hb, hc⟩
  · intro hnot
    rcases hstate with ⟨_, m, hcalls, hmem⟩ | ⟨h0, _, _⟩
    · rw [hmem]
      exact ⟨by simp [Mem.set], hcalls⟩
    · exact absurd (total_eq_zero_all s.progs hsafe h0) hnot

theorem stepThread_lengths (check : Bool) (h : Addr) (s s1 : Sys) (i : Nat)
    (hstep : stepThread check h s i = Run.ok s1) :
    s1.progs.length = s.progs.length ∧
    ∀ k, (s1.progs.getD k []).length
      = (s.progs.getD k []).length - (if k = i then 1 else 0) := by
  unfold stepThread at hstep
  cases hget : s.progs.get? i with
  | none =>
    rw [hget] at hstep
    simp only [Run.ok.injEq] at hstep
    subst hstep
    refine ⟨rfl, fun k => ?_⟩
    by_cases hk : k = i
    · subst hk
      simp [List.getD_eq_getElem?_getD, ← List.get?_eq_getElem?, hget]
    · simp [hk]
  | some p =>
    rw [hget] at hstep
    cases p with
    | nil =>
      simp only [Run.ok.injEq] at hstep
      subst hstep
      refine ⟨rfl, fun k => ?_⟩
      by_cases hk : k = i
      · subst hk
        simp [List.getD_eq_getElem?_getD, ← List.get?_eq_getElem?, hget]
      · simp [hk]
    | cons op rest =>
      simp only [] at hstep
      cases hex : execOp check s.mem h op with
      | ok v m1 =>
        rw [hex] at hstep
        simp only [Run.ok.injEq] at hstep
        subst hstep
        refine ⟨by simp, fun k => ?_⟩
        have hilt : i < s.progs.length := by
          by_contra hnot
          have : s.progs.get? i = none := List.get?_eq_none.mpr (by omega)
          rw [this] at hget
          cases hget
        by_cases hk : k = i
        · subst hk
          have he : s.progs[k] = op :: rest := by
            have h1 := hget
            rw [List.get?_eq_getElem?, List.getElem?_eq_getElem hilt] at h1
            exact Option.some.inj h1
          simp [List.getD_eq_getElem?_getD, List.getElem?_set, hilt, he]
        · have hne : i ≠ k := fun e => hk e.symm
          simp [List.getD_eq_getElem?_getD, List.getElem?_set, hne, hk]
      | assertFail => rw [hex] at hstep; cases hstep
      | undefined => rw [hex] at hstep; cases hstep

theorem runSched_lengths (check : Bool) (h : Addr) (sched : List Nat) :
    ∀ (s s1 : Sys), runSched check h s sched = Run.ok s1 →
      s1.progs.length = s.progs.length ∧
      ∀ k, (s1.progs.getD k []).length = (s.progs.getD k []).length - sched.count k := by
  induction sched with
  | nil =>
    intro s s1 hrun
    simp only [runSched, Run.ok.injEq] at hrun
    subst hrun
    exact ⟨rfl, fun k => by simp⟩
  | cons i rest ih =>
    intro s s1 hrun
    simp only [runSched] at hrun
    cases hstep : stepThread check h s i with
    | ok s2 =>
      rw [hstep] at hrun
      obtain ⟨hl2, hk2⟩ := stepThread_lengths check h s s2 i hstep
      obtain ⟨hl1, hk1⟩ := ih s2 s1 hrun
      refine ⟨by omega, fun k => ?_⟩
      rw [hk1 k, hk2 k, List.count_cons]
      by_cases hk : k = i
      · subst hk; simp; omega
      · have hne : ¬ (i = k) := fun e => hk e.symm
        simp [hk, hne]
    | assertFail => rw [hstep] at hrun; cases hrun
    | undefined => rw [hstep] at hrun; cases hrun

/-- A complete schedule leaves no thread with a call to make. -/
theorem finished_of_complete (check : Bool) (h : Addr) (sched : List Nat) (s s1 : Sys)
    (hrun : runSched check h s sched = Run.ok s1) (hc : Complete s.progs sched) :
    s1.finished := by
  obtain ⟨hl, hk⟩ := runSched_lengths check h sched s s1 hrun
  intro p hp
  obtain ⟨k, hklt, hkp⟩ := List.getElem_of_mem hp
  have h1 := hk k
  have h2 := hc k (by omega)
  have h3 : s1.progs.getD k [] = p := by
    simp [List.getD_eq_getElem?_getD, hklt, hkp]
  rw [h3] at h1
  exact List.length_eq_zero.mp (by omega)

theorem bal_threadOps (n : Nat) : bal (threadOps n) = 1 := by
  induction n with
  | zero => rfl
  | succ k ih => simp only [threadOps, bal, ih]; omega

theorem safe_threadOps (n : Nat) : Safe (threadOps n) := by
  induction n with
  | zero => simp [threadOps, Safe, bal]
  | succ k ih =>
    have hb := bal_threadOps k
    refine ⟨?_, ?_, ih⟩
    · simp only [bal, hb]; omega
    · simp only [bal, hb]; omega

theorem peak_threadOps (n : Nat) : peak (threadOps n) ≤ 2 := by
  induction n with
  | zero => simp [threadOps, peak, bal]
  | succ k ih =>
    have hb := bal_threadOps k
    simp only [threadOps, peak, bal, hb]
    omega

/-- `refcnt_ref` returns the pointer it was given whenever it returns. -/
theorem refcnt_ref_value (check : Bool) (m m1 : Mem) (ptr v : Addr)
    (h : refcnt_ref check m ptr = Outcome.ok v m1) : v = ptr := by
  unfold refcnt_ref at h
  split at h
  · cases h
  · rename_i hge
    simp only [] at h
    split at h
    · cases h
    · split at h
      · cases h
      · cases h
      · split at h
        · cases h
        · simp only [Outcome.ok.injEq] at h
          rw [← h.1]
          exact Nat.sub_add_cancel (Nat.le_of_not_lt hge)

/-- The calls `test_thread` makes are those of `threadOps`, in that order. -/
theorem test_thread_eq_runOps (check : Bool) (n : Nat) :
    ∀ (m : Mem) (str : Addr),
      test_thread check n m str = (runOps check m str (threadOps n)).forget := by
  induction n with
  | zero =>
    intro m str
    simp only [test_thread, testLoop, threadOps, runOps, execOp]
    cases refcnt_unref check m str <;> rfl
  | succ k ih =>
    intro m str
    have ihk := ih
    simp only [test_thread] at ihk
    simp only [test_thread, testLoop, threadOps, runOps_cons, execOp, refThenUnref]
    cases href : refcnt_ref check m str with
    | ok v m1 =>
      have hv := refcnt_ref_value check m m1 str v href
      subst hv
      simp only []
      cases hun : refcnt_unref check m1 v with
      | ok u m2 =>
        simp only []
        exact ihk m2 v
      | assertFail => rfl
      | undefined => rfl
    | assertFail => rfl
    | undefined => rfl

/-- Threads that share a live block whose refcount is the number of references
they hold: every schedule runs without failure, the region is freed exactly
once, by the step after which no thread has a call left, and not before. -/
theorem run_shared (check : Bool) (m : Mem) (base : Addr) (b : Block) (r : Nat)
    (progs : List (List Op)) (hb : m.blocks base = some b) (hg : Genuine check b r)
    (hsafe : ∀ p ∈ progs, Safe p) (hpeak : total peak progs ≤ (UINT_MOD : Int))
    (h1 : 1 ≤ total bal progs) (hr : r = (total bal progs).toNat % UINT_MOD)
    (sched : List Nat) :
    ∃ s, runSched check (base + offsetofData check) { mem := m, progs := progs } sched
        = Run.ok s ∧
      (Complete progs sched → s.finished) ∧
      (s.finished → s.mem.blocks base = none ∧
        s.mem.calls = m.calls ++ [LibcCall.free base] ∧
        countFrees s.mem.calls = countFrees m.calls + 1) ∧
      (¬ s.finished → s.mem.blocks base ≠ none ∧ s.mem.calls = m.calls) := by
  have hm := mem_as_counted check m base b r hb hg
  have hinv : Inv base b m.calls { mem := m, progs := progs } := by
    refine ⟨hsafe, hpeak, Or.inl ⟨h1, m, rfl, ?_⟩⟩
    have : r % UINT_MOD = (total bal progs).toNat % UINT_MOD := by
      rw [hr, Nat.mod_mod]
    rw [← this]
    exact hm
  obtain ⟨s, hrun, hinv1⟩ := runSched_inv check base b r hg m.calls sched _ hinv
  obtain ⟨hfin, hnot⟩ := inv_outcome base b m.calls s hinv1
  refine ⟨s, hrun, fun hc => finished_of_complete check _ sched _ s hrun hc, fun hf => ?_, hnot⟩
  obtain ⟨h2, h3⟩ := hfin hf
  refine ⟨h2, h3, ?_⟩
  rw [h3, countFrees_append]
  rfl

/-! ## C9: releases from concurrent owners -/

/-- C9, as stated, fails at `T = 2^32`: when 4294967296 threads each hold a
duplicate of the "Hello" handle and the creator holds the original, the 32-bit
refcount reads 1, so the first release of any owner frees the region while
4294967296 owners remain, and the next release runs on freed memory. -/
theorem release_frees_under_other_owners :
    runOps true (helloMem 1) 24 (List.replicate 4294967296 Op.ref)
      = Outcome.ok 24 (helloMem 1) ∧
    (runSched true 24 { mem := helloMem 1, progs := List.replicate (4294967296 + 1) [Op.unref] }
      [0]).blockAt 16 = none ∧
    (runSched true 24 { mem := helloMem 1, progs := List.replicate (4294967296 + 1) [Op.unref] }
      [0]).callsMade = [LibcCall.malloc 14, LibcCall.free 16] ∧
    (runSched true 24 { mem := helloMem 1, progs := List.replicate (4294967296 + 1) [Op.unref] }
      [0, 1]).isUndefined = true := by
  have hb : (helloMem 1).blocks 16 = some (helloBlock 1) := by decide
  have hg : Genuine true (helloBlock 1) 1 := by decide
  have hm := mem_as_counted true (helloMem 1) 16 (helloBlock 1) 1 hb hg
  have hone : 1 % UINT_MOD = 1 := by rw [UINT_MOD_eq]
  rw [hone] at hm
  have h24 : (16 : Addr) + offsetofData true = 24 := rfl
  have hlast := execOp_unref_last true (helloMem 1) 16 (helloBlock 1) 1 hg
  rw [← hm, h24] at hlast
  have hprogs : List.replicate (4294967296 + 1) [Op.unref]
      = [Op.unref] :: [Op.unref] :: List.replicate 4294967295 [Op.unref] := by
    rw [List.replicate_succ]
    have : (4294967296 : Nat) = 4294967295 + 1 := rfl
    rw [this, List.replicate_succ]
  have hstep : stepThread true 24
      { mem := helloMem 1, progs := List.replicate (4294967296 + 1) [Op.unref] } 0
      = Run.ok { mem := ((helloMem 1).log (LibcCall.free 16)).set 16 none,
                 progs := [] :: [Op.unref] :: List.replicate 4294967295 [Op.unref] } := by
    rw [hprogs]
    simp only [stepThread, List.get?, hlast, List.set]
  refine ⟨?_, ?_, ?_, ?_⟩
  · have hrefs := run_refs true 16 (helloBlock 1) 1 hg 4294967296 (helloMem 1) 1 []
    have hwrap : (1 + 4294967296) % UINT_MOD = 1 := by rw [UINT_MOD_eq]
    rw [hone, ← hm, hwrap, ← hm, h24, List.append_nil] at hrefs
    rw [hrefs]
    rfl
  · simp only [runSched, hstep, Run.blockAt]
    simp [Mem.set]
  · simp only [runSched, hstep, Run.callsMade]
    simp [Mem.set, Mem.log, helloMem]
  · have hfreed : (((helloMem 1).log (LibcCall.free 16)).set 16 none).blocks 16 = none := by
      simp [Mem.set]
    have hu := execOp_freed true _ 16 Op.unref hfreed
    rw [h24] at hu
    have hstep2 : stepThread true 24
        { mem := ((helloMem 1).log (LibcCall.free 16)).set 16 none,
          progs := [] :: [Op.unref] :: List.replicate 4294967295 [Op.unref] } 1
        = Run.undefined := by
      simp only [stepThread, List.get?, hu]
    have hrun : runSched true 24
        { mem := helloMem 1, progs := List.replicate (4294967296 + 1) [Op.unref] } [0, 1]
        = Run.undefined := by
      rw [runSched, hstep]
      simp only []
      rw [runSched, hstep2]
    rw [hrun]
    rfl

/-- Why the schedule of the demonstration needs the stronger bound in C9
(amended): with `T = 2^32 - 1` threads the refcount field holds 0 for
`T + 1 = 2^32` owners; when thread 1 runs the first turn of its loop, its
duplicate stores 1 and its release observes 1 and frees the region, while the
creator and all threads still hold their references. -/
theorem cycle_frees_under_other_owners :
    runOps true (helloMem 1) 24 (List.replicate 4294967295 Op.ref)
      = Outcome.ok 24 (helloMem 0) ∧
    (runSched true 24
      { mem := helloMem 0, progs := [Op.unref] :: List.replicate 4294967295 (threadOps 1) }
      [1, 1]).blockAt 16 = none ∧
    (runSched true 24
      { mem := helloMem 0, progs := [Op.unref] :: List.replicate 4294967295 (threadOps 1) }
      [1, 1]).callsMade = [LibcCall.malloc 14, LibcCall.free 16] ∧
    (runSched true 24
      { mem := helloMem 0, progs := [Op.unref] :: List.replicate 4294967295 (threadOps 1) }
      [1, 1, 0]).isUndefined = true := by
  have hb1 : (helloMem 1).blocks 16 = some (helloBlock 1) := by decide
  have hg1 : Genuine true (helloBlock 1) 1 := by decide
  have hone : 1 % UINT_MOD = 1 := by rw [UINT_MOD_eq]
  have hzero : 0 % UINT_MOD = 0 := by rw [UINT_MOD_eq]
  have hm1 := mem_as_counted true (helloMem 1) 16 (helloBlock 1) 1 hb1 hg1
  rw [hone] at hm1
  have h24 : (16 : Addr) + offsetofData true = 24 := rfl
  have hm0 : helloMem 0 = (helloMem 1).set 16 (some ((helloBlock 1).withCount 0)) := by
    simp only [helloMem, Mem.set, Block.withCount, helloBlock]
    congr 1
    funext x
    by_cases hx : x = 16 <;> simp [hx]
  -- thread 1 duplicates: the stored count goes from 0 to 1
  have href := execOp_ref_counted true (helloMem 1) 16 (helloBlock 1) 1 0 hg1
  rw [hzero, ← hm0, h24] at href
  have hone' : (0 + 1) % UINT_MOD = 1 := by rw [UINT_MOD_eq]
  rw [hone', ← hm1] at href
  -- thread 1 releases: it observes 1 and frees
  have hlast := execOp_unref_last true (helloMem 1) 16 (helloBlock 1) 1 hg1
  rw [← hm1, h24] at hlast
  have hprogs : List.replicate 4294967295 (threadOps 1)
      = threadOps 1 :: List.replicate 4294967294 (threadOps 1) := by
    have : (4294967295 : Nat) = 4294967294 + 1 := rfl
    rw [this, List.replicate_succ]
  have hstep1 : stepThread true 24
      { mem := helloMem 0, progs := [Op.unref] :: List.replicate 4294967295 (threadOps 1) } 1
      = Run.ok { mem := helloMem 1,
                 progs := [Op.unref] :: [Op.unref, Op.unref]
                   :: List.replicate 4294967294 (threadOps 1) } := by
    rw [hprogs]
    simp only [stepThread, List.get?, threadOps, href, List.set]
  have hstep2 : stepThread true 24
      { mem := helloMem 1,
        progs := [Op.unref] :: [Op.unref, Op.unref]
          :: List.replicate 4294967294 (threadOps 1) } 1
      = Run.ok { mem := ((helloMem 1).log (LibcCall.free 16)).set 16 none,
                 progs := [Op.unref] :: [Op.unref]
                   :: List.replicate 4294967294 (threadOps 1) } := by
    simp only [stepThread, List.get?, hlast, List.set]
  have hfreed : (((helloMem 1).log (LibcCall.free 16)).set 16 none).blocks 16 = none := by
    simp [Mem.set]
  have hu := execOp_freed true _ 16 Op.unref hfreed
  rw [h24] at hu
  have hstep3 : stepThread true 24
      { mem := ((helloMem 1).log (LibcCall.free 16)).set 16 none,
        progs := [Op.unref] :: [Op.unref]
          :: List.replicate 4294967294 (threadOps 1) } 0
      = Run.undefined := by
    simp only [stepThread, List.get?, hu]
  have hrun2 : runSched true 24
      { mem := helloMem 0, progs := [Op.unref] :: List.replicate 4294967295 (threadOps 1) }
      [1, 1]
      = Run.ok { mem := ((helloMem 1).log (LibcCall.free 16)).set 16 none,
                 progs := [Op.unref] :: [Op.unref]
                   :: List.replicate 4294967294 (threadOps 1) } := by
    rw [runSched, hstep1]
    simp only []
    rw [runSched, hstep2]
    rfl
  have hrun3 : runSched true 24
      { mem := helloMem 0, progs := [Op.unref] :: List.replicate 4294967295 (threadOps 1) }
      [1, 1, 0] = Run.undefined := by
    rw [runSched, hstep1]
    simp only []
    rw [runSched, hstep2]
    simp only []
    rw [runSched, hstep3]
  refine ⟨?_, ?_, ?_, ?_⟩
  · have hrefs := run_refs true 16 (helloBlock 1) 1 hg1 4294967295 (helloMem 1) 1 []
    have hwrap : (1 + 4294967295) % UINT_MOD = 0 := by rw [UINT_MOD_eq]
    rw [hone, ← hm1, hwrap, ← hm0, h24, List.append_nil] at hrefs
    rw [hrefs]
    rfl
  · rw [hrun2]; simp [Run.blockAt, Mem.set]
  · rw [hrun2]; simp [Run.callsMade, Mem.set, Mem.log, helloMem]
  · rw [hrun3]; rfl

/-- C9 (amended): let `T` threads each hold one duplicate of a shared handle
and the creator hold the original (a live block whose refcount is `T + 1`
modulo `2^32`).  If `T < 2^32` and each of the `T + 1` owners releases once,
then under every order of the atomic releases the run does not fail, the
region is freed exactly once, by the release after which no owner has a call
left, and it is live before; every complete schedule ends that way.  If
`2 T + 1 ≤ 2^32` the same holds when each thread runs `test_thread` with `K`
turns of its loop before its final release. -/
theorem concurrent_releases_free_once (check : Bool) (m : Mem) (base : Addr) (b : Block)
    (T K : Nat) (hb : m.blocks base = some b)
    (hg : Genuine check b ((T + 1) % UINT_MOD)) :
    (T + 1 ≤ UINT_MOD → ∀ sched : List Nat,
      ∃ s, runSched check (base + offsetofData check)
          { mem := m, progs := List.replicate (T + 1) [Op.unref] } sched = Run.ok s ∧
        (Complete (List.replicate (T + 1) [Op.unref]) sched → s.finished) ∧
        (s.finished → s.mem.blocks base = none ∧
          s.mem.calls = m.calls ++ [LibcCall.free base] ∧
          countFrees s.mem.calls = countFrees m.calls + 1) ∧
        (¬ s.finished → s.mem.blocks base ≠ none ∧ s.mem.calls = m.calls)) ∧
    (2 * T + 1 ≤ UINT_MOD → ∀ sched : List Nat,
      ∃ s, runSched check (base + offsetofData check)
          { mem := m, progs := [Op.unref] :: List.replicate T (threadOps K) } sched
          = Run.ok s ∧
        (Complete ([Op.unref] :: List.replicate T (threadOps K)) sched → s.finished) ∧
        (s.finished → s.mem.blocks base = none ∧
          s.mem.calls = m.calls ++ [LibcCall.free base] ∧
          countFrees s.mem.calls = countFrees m.calls + 1) ∧
        (¬ s.finished → s.mem.blocks base ≠ none ∧ s.mem.calls = m.calls)) := by
  have hbu : bal [Op.unref] = 1 := rfl
  have hpu : peak [Op.unref] = 1 := rfl
  have hsu : Safe [Op.unref] := ⟨by rw [hbu], trivial⟩
  constructor
  · intro hT sched
    have htb : total bal (List.replicate (T + 1) [Op.unref]) = ((T + 1 : Nat) : Int) := by
      rw [total_replicate, hbu]; simp
    have htp : total peak (List.replicate (T + 1) [Op.unref]) = ((T + 1 : Nat) : Int) := by
      rw [total_replicate, hpu]; simp
    refine run_shared check m base b _ _ hb hg ?_ ?_ ?_ ?_ sched
    · intro p hp
      rw [List.eq_of_mem_replicate hp]
      exact hsu
    · rw [htp]; exact_mod_cast hT
    · rw [htb]; omega
    · rw [htb]; simp
  · intro hT sched
    have htb : total bal ([Op.unref] :: List.replicate T (threadOps K))
        = ((T + 1 : Nat) : Int) := by
      rw [total_cons, total_replicate, hbu, bal_threadOps]; push_cast; ring
    have htp : total peak ([Op.unref] :: List.replicate T (threadOps K))
        ≤ ((2 * T + 1 : Nat) : Int) := by
      rw [total_cons, total_replicate, hpu]
      have h2 := peak_threadOps K
      have hT0 : (0 : Int) ≤ (T : Int) := Int.ofNat_nonneg T
      have : (T : Int) * peak (threadOps K) ≤ (T : Int) * 2 :=
        Int.mul_le_mul_of_nonneg_left h2 hT0
      push_cast
      omega
    refine run_shared check m base b _ _ hb hg ?_ ?_ ?_ ?_ sched
    · intro p hp
      rcases List.mem_cons.mp hp with h | h
      · rw [h]; exact hsu
      · rw [List.eq_of_mem_replicate h]
        exact safe_threadOps K
    · have : ((2 * T + 1 : Nat) : Int) ≤ (UINT_MOD : Int) := by exact_mod_cast hT
      omega
    · rw [htb]; omega
    · rw [htb]; simp

/-- Witness for C9 (amended): the "Hello" block shared by the creator and two
threads, released in the order thread 1, creator, thread 2. -/
theorem concurrent_releases_free_once_witness :
    ∃ s, runSched true (16 + offsetofData true)
        { mem := helloMem 3, progs := List.replicate (2 + 1) [Op.unref] } [1, 0, 2] = Run.ok s ∧
      (Complete (List.replicate (2 + 1) [Op.unref]) [1, 0, 2] → s.finished) ∧
      (s.finished → s.mem.blocks 16 = none ∧
        s.mem.calls = (helloMem 3).calls ++ [LibcCall.free 16] ∧
        countFrees s.mem.calls = countFrees (helloMem 3).calls + 1) ∧
      (¬ s.finished → s.mem.blocks 16 ≠ none ∧ s.mem.calls = (helloMem 3).calls) :=
  (concurrent_releases_free_once true (helloMem 3) 16 (helloBlock 3) 2 1
    (by decide) (by decide)).1 (by decide) [1, 0, 2]

/-! ## C16: frame of the ownership calls -/

/-- C16: on a live block (refcount `r ≥ 1`) `refcnt_ref` returns the same
address and changes only the refcount field; so does a `refcnt_unref` that
observes `r > 1`, after which the block still passes for a counted object with
`r - 1` owners.  Size, sentinel and payload of the block, the allocator log
and every other region are unchanged.  A `refcnt_unref` that observes 1 frees
the block and leaves every other region unchanged. -/
theorem ownership_calls_frame (check : Bool) (m : Mem) (base : Addr) (b : Block) (r : Nat)
    (hb : m.blocks base = some b) (hg : Genuine check b r) (hr : 1 ≤ r) :
    (∃ m1 b1, refcnt_ref check m (base + offsetofData check)
          = Outcome.ok (base + offsetofData check) m1 ∧
        m1.blocks base = some b1 ∧
        b1.size = b.size ∧ b1.magic = b.magic ∧ b1.data = b.data ∧
        m1.calls = m.calls ∧ ∀ a, a ≠ base → m1.blocks a = m.blocks a) ∧
    (1 < r → ∃ m1 b1, refcnt_unref check m (base + offsetofData check) = Outcome.ok () m1 ∧
        m1.blocks base = some b1 ∧
        b1.size = b.size ∧ b1.magic = b.magic ∧ b1.data = b.data ∧
        Genuine check b1 (r - 1) ∧ 1 ≤ r - 1 ∧
        m1.calls = m.calls ∧ ∀ a, a ≠ base → m1.blocks a = m.blocks a) ∧
    (r = 1 → ∃ m1, refcnt_unref check m (base + offsetofData check) = Outcome.ok () m1 ∧
        m1.blocks base = none ∧ ∀ a, a ≠ base → m1.blocks a = m.blocks a) := by
  have hlt : r < UINT_MOD := hg.2.2.1
  have hsub : (r + (UINT_MOD - 1)) % UINT_MOD = r - 1 := by
    rw [UINT_MOD_eq] at hlt ⊢; omega
  refine ⟨⟨_, _, refcnt_ref_genuine check m base b r hb hg, Mem.set_blocks_same _ _ _,
      rfl, rfl, rfl, rfl, fun a ha => Mem.set_blocks_other _ _ _ _ ha⟩, ?_, ?_⟩
  · intro h1
    refine ⟨_, _, refcnt_unref_keep check m base b r hb hg (by omega),
      Mem.set_blocks_same _ _ _, rfl, rfl, rfl, ?_, by omega, rfl,
      fun a ha => Mem.set_blocks_other _ _ _ _ ha⟩
    rw [hsub]
    exact genuine_setRefcount check b r (r - 1) hg (by omega)
  · intro h1
    subst h1
    refine ⟨_, refcnt_unref_last check m base b hb hg, Mem.set_blocks_same _ _ _, ?_⟩
    intro a ha
    rw [Mem.set_blocks_other _ _ _ _ ha, Mem.log_blocks]

/-- Witness for C16: the "Hello" block shared by two owners, one of whom
releases. -/
theorem ownership_calls_frame_witness :
    ∃ m1 b1, refcnt_unref true (helloMem 2) (16 + offsetofData true) = Outcome.ok () m1 ∧
      m1.blocks 16 = some b1 ∧
      b1.size = (helloBlock 2).size ∧ b1.magic = (helloBlock 2).magic ∧
      b1.data = (helloBlock 2).data ∧
      Genuine true b1 (2 - 1) ∧ 1 ≤ 2 - 1 ∧
      m1.calls = (helloMem 2).calls ∧ ∀ a, a ≠ 16 → m1.blocks a = (helloMem 2).blocks a :=
  (ownership_calls_frame true (helloMem 2) 16 (helloBlock 2) 2
    (by decide) (by decide) (by decide)).2.1 (by decide)

/-! ## C19: the refcount is a 32-bit counter -/

/-- C19: after `k` duplicates of a block that has just been created the
refcount field holds `(1 + k) mod 2^32` and the block is still there; a
duplicate at refcount `2^32 - 1` stores 0 in a block that stays live; after
`2^32` duplicates the field holds 1 again, and a single release then frees the
region. -/
theorem refcount_wraps_mod_two_pow_32 (check : Bool) (m : Mem) (base : Addr) (b : Block)
    (hb : m.blocks base = some b) (hg : Genuine check b 1) :
    (∀ k, ∃ mk, runOps check m (base + offsetofData check) (List.replicate k Op.ref)
          = Outcome.ok (base + offsetofData check) mk ∧
        mk.blocks base = some (b.withCount ((1 + k) % UINT_MOD)) ∧ mk.calls = m.calls) ∧
    (∀ (m0 : Mem) (b0 : Block), m0.blocks base = some b0 → Genuine check b0 4294967295 →
      ∃ m1, refcnt_ref check m0 (base + offsetofData check)
          = Outcome.ok (base + offsetofData check) m1 ∧
        m1.blocks base = some (b0.withCount 0) ∧ m1.calls = m0.calls) ∧
    (∃ m1, runOps check m (base + offsetofData check) (List.replicate 4294967296 Op.ref)
          = Outcome.ok (base + offsetofData check) m1 ∧
        m1.blocks base = some (b.withCount 1)) ∧
    (∃ m2, runOps check m (base + offsetofData check)
          (List.replicate 4294967296 Op.ref ++ [Op.unref])
          = Outcome.ok (base + offsetofData check) m2 ∧
        m2.blocks base = none ∧ m2.calls = m.calls ++ [LibcCall.free base]) := by
  have hm := mem_as_counted check m base b 1 hb hg
  have hrefs : ∀ k ops, runOps check m (base + offsetofData check)
      (List.replicate k Op.ref ++ ops)
      = runOps check (m.set base (some (b.withCount ((1 + k) % UINT_MOD))))
          (base + offsetofData check) ops := by
    intro k ops
    have h := run_refs check base b 1 hg k m 1 ops
    rw [← hm] at h
    exact h
  have hwrap : (1 + 4294967296) % UINT_MOD = 1 := by rw [UINT_MOD_eq]
  refine ⟨fun k => ?_, fun m0 b0 hb0 hg0 => ?_, ?_, ?_⟩
  · have h := hrefs k []
    rw [List.append_nil] at h
    exact ⟨m.set base (some (b.withCount ((1 + k) % UINT_MOD))), by rw [h]; rfl,
      Mem.set_blocks_same _ _ _, rfl⟩
  · refine ⟨_, refcnt_ref_genuine check m0 base b0 _ hb0 hg0, ?_, rfl⟩
    have : (4294967295 + 1) % UINT_MOD = 0 := by rw [UINT_MOD_eq]
    rw [Mem.set_blocks_same, this]
    rfl
  · have h := hrefs 4294967296 []
    rw [List.append_nil, hwrap] at h
    exact ⟨m.set base (some (b.withCount 1)), by rw [h]; rfl, Mem.set_blocks_same _ _ _⟩
  · have h := hrefs 4294967296 [Op.unref]
    rw [hwrap, run_unref_last check m base b 1 hg []] at h
    exact ⟨(m.log (LibcCall.free base)).set base none, by rw [h]; rfl,
      Mem.set_blocks_same _ _ _, rfl⟩

/-- Witness for C19 on the "Hello" block. -/
theorem refcount_wraps_mod_two_pow_32_witness :
    ∃ m2, runOps true (helloMem 1) (16 + offsetofData true)
          (List.replicate 4294967296 Op.ref ++ [Op.unref])
          = Outcome.ok (16 + offsetofData true) m2 ∧
        m2.blocks 16 = none ∧ m2.calls = (helloMem 1).calls ++ [LibcCall.free 16] :=
  (refcount_wraps_mod_two_pow_32 true (helloMem 1) 16 (helloBlock 1)
    (by decide) (by decide)).2.2.2

/-! ## C15: duplicateString as create and copy -/

theorem handle_ne_null (check : Bool) (a : Addr) : a + offsetofData check ≠ NULL := by
  cases check <;> simp [offsetofData, NULL]

/-- `refcnt_strdup` and the composition of `refcnt_malloc` with `strcpy` have
the same outcome on every input. -/
theorem refcnt_strdup_eq_createThenCopy (check : Bool) (ans : Addr) (m : Mem)
    (str : List Nat) :
    refcnt_strdup check ans m str = createThenCopy check ans m str := by
  unfold refcnt_strdup createThenCopy
  cases hlen : strlen str with
  | none => rfl
  | some n =>
    have hreq : ((sizeofRefcnt check + n) % SIZE_MOD + 1) % SIZE_MOD
        = (sizeofRefcnt check + (n + 1) % SIZE_MOD) % SIZE_MOD := by
      rw [SIZE_MOD_eq]; omega
    simp only [refcnt_malloc, hreq]
    by_cases ha : ans = NULL
    · simp [libc_malloc, ha]
    · simp only [libc_malloc, ha, if_false, Mem.set_blocks_same, Mem.set_set]
      generalize (if check = true then
          (rawBlock check ((sizeofRefcnt check + (n + 1) % SIZE_MOD) % SIZE_MOD)).storeMagic
            (intOfUInt MAGIC)
          else some (rawBlock check ((sizeofRefcnt check + (n + 1) % SIZE_MOD) % SIZE_MOD)))
        = s1
      cases s1 with
      | none =>
        simp only [commitStore_none]
        generalize atomic_init check
          (rawBlock check ((sizeofRefcnt check + (n + 1) % SIZE_MOD) % SIZE_MOD)) 1 = s2
        cases s2 with
        | none =>
          simp only [commitStore_none, handle_ne_null, if_false, Nat.add_sub_cancel,
            Mem.set_blocks_same]
          generalize strcpy
            (rawBlock check ((sizeofRefcnt check + (n + 1) % SIZE_MOD) % SIZE_MOD)) str = s3
          cases s3 <;>
            simp only [commitStore_none, commitStore_some, Mem.overrun_set, Mem.set_set]
        | some b2 =>
          simp only [commitStore_some, handle_ne_null, if_false, Nat.add_sub_cancel,
            Mem.set_blocks_same]
          generalize strcpy b2 str = s3
          cases s3 <;>
            simp only [commitStore_none, commitStore_some, Mem.overrun_set, Mem.set_set]
      | some b1 =>
        simp only [commitStore_some]
        generalize atomic_init check b1 1 = s2
        cases s2 with
        | none =>
          simp only [commitStore_none, handle_ne_null, if_false, Nat.add_sub_cancel,
            Mem.set_blocks_same]
          generalize strcpy b1 str = s3
          cases s3 <;>
            simp only [commitStore_none, commitStore_some, Mem.overrun_set, Mem.set_set]
        | some b2 =>
          simp only [commitStore_some, handle_ne_null, if_false, Nat.add_sub_cancel,
            Mem.set_blocks_same]
          generalize strcpy b2 str = s3
          cases s3 <;>
            simp only [commitStore_none, commitStore_some, Mem.overrun_set, Mem.set_set]

/-- C15: `refcnt_strdup(str)` has the same outcome as `refcnt_malloc(strlen(str) + 1)`
followed by `strcpy` into the payload, on every input.  For a terminated text
both return `NULL` with the heap regions untouched when the allocator fails,
and otherwise the same handle to the same block: same requested size,
refcount 1, same sentinel, same payload bytes. -/
theorem strdup_refines_create_then_copy (check : Bool) (ans : Addr) (m : Mem) :
    (∀ str : List Nat, refcnt_strdup check ans m str = createThenCopy check ans m str) ∧
    (∀ text rest : List Nat, (∀ c ∈ text, c ≠ 0) →
      (ans = NULL → ∃ m1,
        createThenCopy check ans m (text ++ 0 :: rest) = Outcome.ok NULL m1 ∧
        refcnt_strdup check ans m (text ++ 0 :: rest) = Outcome.ok NULL m1 ∧
        m1.blocks = m.blocks) ∧
      (ans ≠ NULL → sizeofRefcnt check + text.length + 1 < SIZE_MOD → ∃ m1,
        createThenCopy check ans m (text ++ 0 :: rest)
          = Outcome.ok (ans + offsetofData check) m1 ∧
        refcnt_strdup check ans m (text ++ 0 :: rest)
          = Outcome.ok (ans + offsetofData check) m1 ∧
        m1.blocks ans = some (freshBlock check (text.map some ++ [some 0])) ∧
        m1.calls = m.calls ++ [LibcCall.malloc (sizeofRefcnt check + text.length + 1)])) := by
  refine ⟨fun str => refcnt_strdup_eq_createThenCopy check ans m str,
    fun text rest hz => ⟨fun h0 => ?_, fun ha hfit => ?_⟩⟩
  · subst h0
    have hs : refcnt_strdup check NULL m (text ++ 0 :: rest)
        = Outcome.ok NULL (m.log (LibcCall.malloc
            (((sizeofRefcnt check + text.length) % SIZE_MOD + 1) % SIZE_MOD))) := by
      simp [refcnt_strdup, libc_malloc, strlen_terminated text rest hz]
    exact ⟨_, by rw [← refcnt_strdup_eq_createThenCopy, hs], hs, rfl⟩
  · have hs := refcnt_strdup_ok check ans m text rest hz ha hfit
    exact ⟨_, by rw [← refcnt_strdup_eq_createThenCopy, hs], hs,
      Mem.set_blocks_same _ _ _, rfl⟩

/-- Witness for C15: "Hello". -/
theorem strdup_refines_create_then_copy_witness :
    ∃ m1,
      createThenCopy true 16 Mem.empty ([72, 101, 108, 108, 111] ++ 0 :: [])
        = Outcome.ok (16 + offsetofData true) m1 ∧
      refcnt_strdup true 16 Mem.empty ([72, 101, 108, 108, 111] ++ 0 :: [])
        = Outcome.ok (16 + offsetofData true) m1 ∧
      m1.blocks 16 = some (freshBlock true ([72, 101, 108, 108, 111].map some ++ [some 0])) ∧
      m1.calls = Mem.empty.calls
        ++ [LibcCall.malloc (sizeofRefcnt true + [72, 101, 108, 108, 111].length + 1)] :=
  ((strdup_refines_create_then_copy true 16 Mem.empty).2 [72, 101, 108, 108, 111] []
    (by decide)).2 (by decide) (by decide)

/-! ## C14: the sizes requested -/

theorem resized_length (check : Bool) (b : Block) (n : Nat) :
    (resized check b n).data.length = n - sizeofRefcnt check := by
  simp only [resized, List.length_append, List.length_take, List.length_replicate]
  omega

/-- C14, as stated, fails for sizes near `SIZE_MAX`: the sum is taken in
`size_t`.  For `len = SIZE_MAX` with `REFCNT_CHECK`, `refcnt_malloc` asks
`malloc` for 7 bytes and `refcnt_realloc` asks `realloc` for 7 bytes, not for
`8 + SIZE_MAX`; the block the resize returns has no payload byte at all. -/
theorem requests_wrap_at_size_max :
    (sizeofRefcnt true + 18446744073709551615) % SIZE_MOD = 7 ∧
    (refcnt_malloc true NULL Mem.empty 18446744073709551615).callsMade
      = [LibcCall.malloc 7] ∧
    (refcnt_realloc true 32 (helloMem 1) 24 18446744073709551615).callsMade
      = [LibcCall.malloc 14, LibcCall.realloc 16 7] ∧
    ((refcnt_realloc true 32 (helloMem 1) 24 18446744073709551615).blockAt 32).map
      (fun b => b.data.length) = some 0 ∧
    (7 : Nat) ≠ sizeofRefcnt true + 18446744073709551615 := by
  decide

/-- C14 (amended): `refcnt_malloc(len)` asks `malloc` for
`(sizeof(_refcnt) + len) mod 2^64` bytes, `refcnt_realloc(ptr, len)` asks
`realloc` for the same amount, and `refcnt_strdup(str)` asks `malloc` for
`(sizeof(_refcnt) + strlen(str) + 1) mod 2^64`.  When the sum does not exceed
`SIZE_MAX` this is exactly the sum, and a successful call returns a block with
exactly `len` (`strlen(str) + 1`) payload bytes. -/
theorem requests_are_header_plus_size (check : Bool) (ans : Addr) (m : Mem) :
    (∀ len : Nat,
      (refcnt_malloc check NULL m len).callsMade
        = m.calls ++ [LibcCall.malloc ((sizeofRefcnt check + len) % SIZE_MOD)] ∧
      (sizeofRefcnt check + len < SIZE_MOD →
        (sizeofRefcnt check + len) % SIZE_MOD = sizeofRefcnt check + len ∧
        (ans ≠ NULL → ∃ m1 b1,
          refcnt_malloc check ans m len = Outcome.ok (ans + offsetofData check) m1 ∧
          m1.calls = m.calls ++ [LibcCall.malloc (sizeofRefcnt check + len)] ∧
          m1.blocks ans = some b1 ∧ b1.size = sizeofRefcnt check + len ∧
          b1.data.length = len))) ∧
    (∀ (base : Addr) (b : Block) (r len : Nat), m.blocks base = some b → Genuine check b r →
      (refcnt_realloc check ans m (base + offsetofData check) len).callsMade
        = m.calls ++ [LibcCall.realloc base ((sizeofRefcnt check + len) % SIZE_MOD)] ∧
      (sizeofRefcnt check + len < SIZE_MOD → ans ≠ NULL → ∃ m1 b1,
          refcnt_realloc check ans m (base + offsetofData check) len
            = Outcome.ok (ans + offsetofData check) m1 ∧
          m1.calls = m.calls ++ [LibcCall.realloc base (sizeofRefcnt check + len)] ∧
          m1.blocks ans = some b1 ∧ b1.size = sizeofRefcnt check + len ∧
          b1.data.length = len)) ∧
    (∀ text rest : List Nat, (∀ c ∈ text, c ≠ 0) →
      (refcnt_strdup check NULL m (text ++ 0 :: rest)).callsMade
        = m.calls ++ [LibcCall.malloc ((sizeofRefcnt check + text.length + 1) % SIZE_MOD)] ∧
      (sizeofRefcnt check + text.length + 1 < SIZE_MOD → ans ≠ NULL → ∃ m1 b1,
          refcnt_strdup check ans m (text ++ 0 :: rest)
            = Outcome.ok (ans + offsetofData check) m1 ∧
          m1.calls = m.calls ++ [LibcCall.malloc (sizeofRefcnt check + text.length + 1)] ∧
          m1.blocks ans = some b1 ∧ b1.size = sizeofRefcnt check + (text.length + 1) ∧
          b1.data.length = text.length + 1)) := by
  refine ⟨fun len => ⟨?_, fun hfit => ⟨Nat.mod_eq_of_lt hfit, fun ha => ?_⟩⟩,
    fun base b r len hb hg => ⟨?_, fun hfit ha => ?_⟩,
    fun text rest hz => ⟨?_, fun hfit ha => ?_⟩⟩
  · simp [refcnt_malloc, libc_malloc, Outcome.callsMade, Mem.log]
  · refine ⟨_, _, refcnt_malloc_ok check ans m len ha hfit, rfl, Mem.set_blocks_same _ _ _,
      ?_, ?_⟩ <;> simp [freshBlock]
  · by_cases ha : ans = NULL
    · subst ha
      by_cases hreq : (sizeofRefcnt check + len) % SIZE_MOD = 0
      · rw [refcnt_realloc_zero check m base b r len hb hg hreq, hreq]
        rfl
      · rw [refcnt_realloc_null check m base b r len hb hg hreq]
        rfl
    · rw [refcnt_realloc_moved check ans m base b r len hb hg ha]
      rfl
  · have hmod : (sizeofRefcnt check + len) % SIZE_MOD = sizeofRefcnt check + len :=
      Nat.mod_eq_of_lt hfit
    refine ⟨_, _, refcnt_realloc_moved check ans m base b r len hb hg ha, ?_,
      Mem.set_blocks_same _ _ _, ?_, ?_⟩
    · simp [Mem.set, Mem.log, hmod]
    · rw [hmod]; rfl
    · rw [hmod, resized_length, Nat.add_sub_cancel_left]
  · have hs : refcnt_strdup check NULL m (text ++ 0 :: rest)
        = Outcome.ok NULL (m.log (LibcCall.malloc
            (((sizeofRefcnt check + text.length) % SIZE_MOD + 1) % SIZE_MOD))) := by
      simp [refcnt_strdup, libc_malloc, strlen_terminated text rest hz]
    rw [hs]
    simp [Outcome.callsMade, Mem.log]
  · refine ⟨_, _, refcnt_strdup_ok check ans m text rest hz ha hfit, rfl,
      Mem.set_blocks_same _ _ _, ?_, ?_⟩ <;> simp [freshBlock]

/-- Witness for C14 (amended): a 5-byte `refcnt_malloc`. -/
theorem requests_are_header_plus_size_witness :
    ∃ m1 b1,
      refcnt_malloc true 16 Mem.empty 5 = Outcome.ok (16 + offsetofData true) m1 ∧
      m1.calls = Mem.empty.calls ++ [LibcCall.malloc (sizeofRefcnt true + 5)] ∧
      m1.blocks 16 = some b1 ∧ b1.size = sizeofRefcnt true + 5 ∧ b1.data.length = 5 :=
  (((requests_are_header_plus_size true 16 Mem.empty).1 5).2 (by decide)).2 (by decide)

/-! ## Blocks that pass the check -/

/-- A block whose sentinel compares equal passes the three assertions. -/
theorem passes_not_assertFail (m : Mem) (base : Addr) (b : Block)
    (hb : m.blocks base = some b) (hm : magicOk b = some true) :
    (refcnt_ref true m (base + offsetofData true)).isAssertFail = false ∧
    (refcnt_unref true m (base + offsetofData true)).isAssertFail = false ∧
    ∀ (ans : Addr) (len : Nat),
      (refcnt_realloc true ans m (base + offsetofData true) len).isAssertFail = false := by
  refine ⟨?_, ?_, fun ans len => ?_⟩
  · simp only [refcnt_ref, handle_not_below, if_false, Nat.add_sub_cancel, hb, if_true, hm]
    split <;> rfl
  · simp only [refcnt_unref, handle_not_below, if_false, Nat.add_sub_cancel, hb, if_true, hm]
    split
    · rfl
    · split
      · split <;> rfl
      · rfl
  · simp only [refcnt_realloc, handle_not_below, if_false, Nat.add_sub_cancel, hb, if_true, hm]
    split
    · rfl
    · split <;> rfl

theorem magicOk_resized (b : Block) (n : Nat) (hm : magicOk b = some true) (hn : 4 ≤ n) :
    magicOk (resized true b n) = some true ∧ (resized true b n).magic = b.magic := by
  have hsz : 4 ≤ b.size := by
    by_contra hlt
    simp [magicOk, Block.loadMagic, hlt] at hm
  have hmin : 4 ≤ min b.size n := by omega
  have hkeep : (resized true b n).magic = b.magic := by simp [resized, hmin]
  refine ⟨?_, hkeep⟩
  simp only [magicOk, Block.loadMagic, hsz, if_true] at hm
  have hsz1 : 4 ≤ (resized true b n).size := hn
  simp only [magicOk, Block.loadMagic, hsz1, if_true, hkeep]
  exact hm

/-! ## C12: the refcount counts the owners -/

theorem genuine_resized (check : Bool) (b : Block) (r n : Nat) (hg : Genuine check b r)
    (hn : sizeofRefcnt check ≤ n) : Genuine check (resized check b n) r := by
  obtain ⟨hs, hr, hlt, hm⟩ := hg
  have hoff : offsetofRefcount check + 4 = sizeofRefcnt check := by cases check <;> rfl
  have hmin : offsetofRefcount check + 4 ≤ min b.size n := by omega
  refine ⟨hn, ?_, hlt, fun hc => ?_⟩
  · simp [resized, hmin, hr]
  · subst hc
    have h4 : 4 ≤ n := by simp [sizeofRefcnt] at hn; omega
    exact (magicOk_resized b n (hm rfl) h4).1

/-- Calls by current owners, with fewer than `2^32` owners and sizes that do
not wrap, keep the block live with its refcount equal to the number of
owners. -/
theorem runCalls_counts (check : Bool) (cs : List Call) :
    ∀ (c : Nat) (m : Mem) (base : Addr) (b : Block), m.blocks base = some b →
      Genuine check b c → 1 ≤ c → admissible check c cs = true →
      ∃ base1 m1 b1, runCalls check m (base + offsetofData check) cs
          = Outcome.ok (base1 + offsetofData check) m1 ∧
        m1.blocks base1 = some b1 ∧
        Genuine check b1 (c + countDup cs - countRelease cs) ∧
        countRelease cs + 1 ≤ c + countDup cs := by
  induction cs with
  | nil =>
    intro c m base b hb hg hc _
    exact ⟨base, m, b, rfl, hb, by simpa [countDup, countRelease] using hg,
      by simp [countDup, countRelease]; omega⟩
  | cons call cs ih =>
    intro c m base b hb hg hc hadm
    cases call with
    | dup =>
      simp only [admissible, Bool.and_eq_true, decide_eq_true_eq] at hadm
      obtain ⟨hlt, hrest⟩ := hadm
      have hg1 : Genuine check { b with refcount := some ((c + 1) % UINT_MOD) } (c + 1) := by
        rw [Nat.mod_eq_of_lt hlt]
        exact genuine_setRefcount check b c (c + 1) hg hlt
      obtain ⟨base1, m1, b1, hrun, hb1, hg2, hle⟩ :=
        ih (c + 1) (m.set base (some { b with refcount := some ((c + 1) % UINT_MOD) }))
          base _ (Mem.set_blocks_same m base _) hg1 (by omega) hrest
      refine ⟨base1, m1, b1, ?_, hb1, ?_, ?_⟩
      · simp only [runCalls, refcnt_ref_genuine check m base b c hb hg, hrun]
      · have : c + 1 + countDup cs - countRelease cs
            = c + countDup (Call.dup :: cs) - countRelease (Call.dup :: cs) := by
          simp only [countDup, countRelease]; omega
        rw [← this]; exact hg2
      · simp only [countDup, countRelease]; omega
    | release =>
      simp only [admissible, Bool.and_eq_true, decide_eq_true_eq] at hadm
      obtain ⟨h2, hrest⟩ := hadm
      have hlt := hg.2.2.1
      have hsub : (c + (UINT_MOD - 1)) % UINT_MOD = c - 1 := by
        rw [UINT_MOD_eq] at hlt ⊢; omega
      have hg1 : Genuine check { b with refcount := some ((c + (UINT_MOD - 1)) % UINT_MOD) }
          (c - 1) := by
        rw [hsub]
        exact genuine_setRefcount check b c (c - 1) hg (by omega)
      obtain ⟨base1, m1, b1, hrun, hb1, hg2, hle⟩ :=
        ih (c - 1)
          (m.set base (some { b with refcount := some ((c + (UINT_MOD - 1)) % UINT_MOD) }))
          base _ (Mem.set_blocks_same m base _) hg1 (by omega) hrest
      refine ⟨base1, m1, b1, ?_, hb1, ?_, ?_⟩
      · simp only [runCalls, refcnt_unref_keep check m base b c hb hg (by omega), hrun]
      · have : c - 1 + countDup cs - countRelease cs
            = c + countDup (Call.release :: cs) - countRelease (Call.release :: cs) := by
          simp only [countDup, countRelease]; omega
        rw [← this]; exact hg2
      · simp only [countDup, countRelease]; omega
    | resize ans len =>
      simp only [admissible, Bool.and_eq_true, decide_eq_true_eq] at hadm
      obtain ⟨hfit, hrest⟩ := hadm
      by_cases ha : ans = NULL
      · subst ha
        obtain ⟨base1, m1, b1, hrun, hb1, hg2, hle⟩ :=
          ih c (m.log (LibcCall.realloc base ((sizeofRefcnt check + len) % SIZE_MOD)))
            base b hb hg hc hrest
        have hreq : (sizeofRefcnt check + len) % SIZE_MOD ≠ 0 := by
          rw [Nat.mod_eq_of_lt hfit]
          cases check <;> simp [sizeofRefcnt]
        refine ⟨base1, m1, b1, ?_, hb1, ?_, ?_⟩
        · simp only [runCalls, refcnt_realloc_null check m base b c len hb hg hreq, if_true,
            hrun]
        · simpa [countDup, countRelease] using hg2
        · simpa [countDup, countRelease] using hle
      · have hmod : (sizeofRefcnt check + len) % SIZE_MOD = sizeofRefcnt check + len :=
          Nat.mod_eq_of_lt hfit
        have hg1 : Genuine check
            (resized check b ((sizeofRefcnt check + len) % SIZE_MOD)) c := by
          rw [hmod]
          exact genuine_resized check b c _ hg (Nat.le_add_right _ _)
        obtain ⟨base1, m1, b1, hrun, hb1, hg2, hle⟩ :=
          ih c (((m.log (LibcCall.realloc base ((sizeofRefcnt check + len) % SIZE_MOD))).set
              base none).set ans
              (some (resized check b ((sizeofRefcnt check + len) % SIZE_MOD))))
            ans _ (Mem.set_blocks_same _ ans _) hg1 hc hrest
        refine ⟨base1, m1, b1, ?_, hb1, ?_, ?_⟩
        · simp only [runCalls, refcnt_realloc_moved check ans m base b c len hb hg ha,
            handle_ne_null, if_false, hrun]
        · simpa [countDup, countRelease] using hg2
        · simpa [countDup, countRelease] using hle

/-- `n` duplicates in a row add `n` to the count modulo `UINT_MAX + 1`. -/
theorem runCalls_dups (check : Bool) (base : Addr) (b : Block) (r : Nat)
    (hg : Genuine check b r) (n : Nat) : ∀ (m : Mem) (c : Nat) (cs : List Call),
    runCalls check (m.set base (some (b.withCount (c % UINT_MOD)))) (base + offsetofData check)
        (List.replicate n Call.dup ++ cs)
      = runCalls check (m.set base (some (b.withCount ((c + n) % UINT_MOD))))
          (base + offsetofData check) cs := by
  induction n with
  | zero => intro m c cs; rfl
  | succ k ih =>
    intro m c cs
    rw [List.replicate_succ, List.cons_append, runCalls, ref_counted check m base b r c hg]
    simp only []
    rw [ih m (c + 1) cs]
    have : c + 1 + k = c + (k + 1) := by omega
    rw [this]

/-- C12, as stated, fails in two ways.  After `2^32 - 1` duplicates of the
fresh "Hello" handle (no release at all) the block is live with `2^32` owners
and its refcount field holds 0, neither `1 + 4294967295` nor a value `≥ 1`.
And a resize to `SIZE_MAX` payload bytes, whose request wraps to 7 bytes,
leaves a block whose refcount field is cut off. -/
theorem refcount_loses_count_of_owners :
    (helloMem 1).blocks 16 = some (helloBlock 1) ∧ Genuine true (helloBlock 1) 1 ∧
    (runCalls true (helloMem 1) 24 (List.replicate 4294967295 Call.dup)).value = some 24 ∧
    ((runCalls true (helloMem 1) 24 (List.replicate 4294967295 Call.dup)).blockAt 16).bind
      Block.refcount = some 0 ∧
    ((runCalls true (helloMem 1) 24 [Call.resize 32 18446744073709551615]).blockAt 32).bind
      Block.refcount = none := by
  have hb : (helloMem 1).blocks 16 = some (helloBlock 1) := by decide
  have hg : Genuine true (helloBlock 1) 1 := by decide
  have hm := mem_as_counted true (helloMem 1) 16 (helloBlock 1) 1 hb hg
  have h := runCalls_dups true 16 (helloBlock 1) 1 hg 4294967295 (helloMem 1) 1 []
  have hwrap : (1 + 4294967295) % UINT_MOD = 0 := by rw [UINT_MOD_eq]
  have h24 : (16 : Addr) + offsetofData true = 24 := rfl
  rw [← hm, hwrap, h24, List.append_nil] at h
  refine ⟨hb, hg, ?_, ?_, by decide⟩
  · rw [h]; rfl
  · rw [h]
    simp [runCalls, Outcome.blockAt, Mem.set, Block.withCount]

/-- C12 (amended): start from a block that has just been created (refcount 1)
and let its owners make any sequence of duplicates, releases and resizes on
the handle in use such that in every initial part the releases do not
outnumber the duplicates, the owners stay below `2^32`, and no resize asks for
a size that wraps around `SIZE_MAX`.  Then the run returns, the block behind
the handle in use is live and in good standing, and its refcount is
`1 + duplicates - releases`, which is at least 1; resizes do not enter the
count. -/
theorem refcount_counts_owners (check : Bool) (m : Mem) (base : Addr) (b : Block)
    (cs : List Call) (hb : m.blocks base = some b) (hg : Genuine check b 1)
    (hadm : admissible check 1 cs = true) :
    ∃ base1 m1 b1, runCalls check m (base + offsetofData check) cs
        = Outcome.ok (base1 + offsetofData check) m1 ∧
      m1.blocks base1 = some b1 ∧
      b1.refcount = some (1 + countDup cs - countRelease cs) ∧
      countRelease cs ≤ countDup cs ∧
      1 ≤ 1 + countDup cs - countRelease cs ∧
      Genuine check b1 (1 + countDup cs - countRelease cs) := by
  obtain ⟨base1, m1, b1, hrun, hb1, hg1, hle⟩ :=
    runCalls_counts check cs 1 m base b hb hg (by omega) hadm
  exact ⟨base1, m1, b1, hrun, hb1, hg1.2.1, by omega, by omega, hg1⟩

/-- Witness for C12 (amended): duplicate, grow, duplicate, release, failed
resize, on the "Hello" block. -/
theorem refcount_counts_owners_witness :
    ∃ base1 m1 b1, runCalls true (helloMem 1) (16 + offsetofData true)
        [Call.dup, Call.resize 32 100, Call.dup, Call.release, Call.resize 0 200]
        = Outcome.ok (base1 + offsetofData true) m1 ∧
      m1.blocks base1 = some b1 ∧
      b1.refcount = some (1
        + countDup [Call.dup, Call.resize 32 100, Call.dup, Call.release, Call.resize 0 200]
        - countRelease
            [Call.dup, Call.resize 32 100, Call.dup, Call.release, Call.resize 0 200]) ∧
      countRelease [Call.dup, Call.resize 32 100, Call.dup, Call.release, Call.resize 0 200]
        ≤ countDup [Call.dup, Call.resize 32 100, Call.dup, Call.release, Call.resize 0 200] ∧
      1 ≤ 1
        + countDup [Call.dup, Call.resize 32 100, Call.dup, Call.release, Call.resize 0 200]
        - countRelease
            [Call.dup, Call.resize 32 100, Call.dup, Call.release, Call.resize 0 200] ∧
      Genuine true b1 (1
        + countDup [Call.dup, Call.resize 32 100, Call.dup, Call.release, Call.resize 0 200]
        - countRelease
            [Call.dup, Call.resize 32 100, Call.dup, Call.release, Call.resize 0 200]) :=
  refcount_counts_owners true (helloMem 1) 16 (helloBlock 1)
    [Call.dup, Call.resize 32 100, Call.dup, Call.release, Call.resize 0 200]
    (by decide) (by decide) (by decide)

/-! ## What the three allocating functions return -/

theorem strcpy_keeps (b b1 : Block) (str : List Nat) (h : strcpy b str = some b1) :
    b1.size = b.size ∧ b1.magic = b.magic := by
  unfold strcpy at h
  split at h
  · cases h
  · split at h
    · cases h; exact ⟨rfl, rfl⟩
    · cases h

/-- The block left by a store, done or past the end, has the size of the block
before, and its sentinel unless the store wrote it. -/
theorem commitStore_keeps (m : Mem) (ref : Addr) (b : Block) (stored : Option Block)
    (hs : ∀ b1, stored = some b1 → b1.size = b.size ∧ b1.magic = b.magic) :
    (commitStore m ref b stored).1.size = b.size ∧
    (commitStore m ref b stored).1.magic = b.magic ∧
    (commitStore m ref b stored).2.blocks = m.blocks ∧
    (commitStore m ref b stored).2.calls = m.calls := by
  cases stored with
  | none => exact ⟨rfl, rfl, rfl, rfl⟩
  | some b1 => exact ⟨(hs b1 rfl).1, (hs b1 rfl).2, rfl, rfl⟩

/-- The header of a fresh region of `n` bytes after the two stores of
`refcnt_malloc`: the sentinel is there when `REFCNT_CHECK` is defined and the
region has room for it. -/
theorem init_header_any (check : Bool) (m : Mem) (ref : Addr) (n : Nat) :
    ∃ b2 m3,
      (match commitStore m ref (rawBlock check n)
          (if check then (rawBlock check n).storeMagic (intOfUInt MAGIC)
            else some (rawBlock check n)) with
        | (b1, m2) => commitStore m2 ref b1 (atomic_init check b1 1)) = (b2, m3) ∧
      b2.size = n ∧ b2.data = List.replicate (n - sizeofRefcnt check) none ∧
      b2.magic = (if check = true ∧ 4 ≤ n then some (intOfUInt MAGIC) else none) ∧
      m3.blocks = m.blocks ∧ m3.calls = m.calls := by
  cases check
  · by_cases h4 : 4 ≤ n
    · exact ⟨_, _, rfl, by simp [commitStore, atomic_init, Block.storeRefcount, rawBlock,
        offsetofRefcount, h4]⟩
    · exact ⟨_, _, rfl, by simp [commitStore, atomic_init, Block.storeRefcount, rawBlock,
        offsetofRefcount, h4, Mem.overrun]⟩
  · by_cases h4 : 4 ≤ n
    · by_cases h8 : 8 ≤ n
      · exact ⟨_, _, rfl, by simp [commitStore, atomic_init, Block.storeRefcount,
          Block.storeMagic, rawBlock, offsetofRefcount, h4, h8]⟩
      · exact ⟨_, _, rfl, by simp [commitStore, atomic_init, Block.storeRefcount,
          Block.storeMagic, rawBlock, offsetofRefcount, h4, h8, Mem.overrun]⟩
    · have h8 : ¬ 8 ≤ n := by omega
      exact ⟨_, _, rfl, by simp [commitStore, atomic_init, Block.storeRefcount,
        Block.storeMagic, rawBlock, offsetofRefcount, h4, h8, Mem.overrun]⟩

/-- For every size, `refcnt_malloc` returns the region start plus the offset of
the payload when the allocator answers a region; the region has the size
requested modulo `SIZE_MAX + 1`. -/
theorem refcnt_malloc_returns (check : Bool) (ans : Addr) (m : Mem) (len : Nat)
    (ha : ans ≠ NULL) :
    ∃ m1 b1, refcnt_malloc check ans m len = Outcome.ok (ans + offsetofData check) m1 ∧
      m1.blocks ans = some b1 ∧
      b1.size = (sizeofRefcnt check + len) % SIZE_MOD ∧
      b1.data.length = (sizeofRefcnt check + len) % SIZE_MOD - sizeofRefcnt check ∧
      b1.magic = (if check = true ∧ 4 ≤ (sizeofRefcnt check + len) % SIZE_MOD
        then some (intOfUInt MAGIC) else none) ∧
      m1.calls = m.calls ++ [LibcCall.malloc ((sizeofRefcnt check + len) % SIZE_MOD)] ∧
      ∀ a, a ≠ ans → m1.blocks a = m.blocks a := by
  obtain ⟨b2, m3, he, hsz, hdata, hmagic, hblocks, hcalls⟩ :=
    init_header_any check
      ((m.log (LibcCall.malloc ((sizeofRefcnt check + len) % SIZE_MOD))).set ans
        (some (rawBlock check ((sizeofRefcnt check + len) % SIZE_MOD))))
      ans ((sizeofRefcnt check + len) % SIZE_MOD)
  refine ⟨m3.set ans (some b2), b2, ?_, Mem.set_blocks_same _ _ _, hsz, ?_, hmagic, ?_, ?_⟩
  · simp only [refcnt_malloc, libc_malloc, ha, if_false, Mem.set_blocks_same]
    simp only [] at he
    rw [he]
  · rw [hdata, List.length_replicate]
  · rw [Mem.set_calls, hcalls]; rfl
  · intro a hane
    rw [Mem.set_blocks_other _ _ _ _ hane, hblocks, Mem.set_blocks_other _ _ _ _ hane]
    rfl

/-- For every terminated text, `refcnt_strdup` returns the region start plus
the offset of the payload when the allocator answers a region. -/
theorem refcnt_strdup_returns (check : Bool) (ans : Addr) (m : Mem) (text rest : List Nat)
    (hz : ∀ c ∈ text, c ≠ 0) (ha : ans ≠ NULL) :
    ∃ m1 b1, refcnt_strdup check ans m (text ++ 0 :: rest)
        = Outcome.ok (ans + offsetofData check) m1 ∧
      m1.blocks ans = some b1 ∧
      b1.size = ((sizeofRefcnt check + text.length) % SIZE_MOD + 1) % SIZE_MOD ∧
      b1.magic = (if check = true
          ∧ 4 ≤ ((sizeofRefcnt check + text.length) % SIZE_MOD + 1) % SIZE_MOD
        then some (intOfUInt MAGIC) else none) ∧
      m1.calls = m.calls ++ [LibcCall.malloc
        (((sizeofRefcnt check + text.length) % SIZE_MOD + 1) % SIZE_MOD)] ∧
      ∀ a, a ≠ ans → m1.blocks a = m.blocks a := by
  have hlen := strlen_terminated text rest hz
  obtain ⟨b2, m3, he, hsz, _, hmagic, hblocks, hcalls⟩ :=
    init_header_any check
      ((m.log (LibcCall.malloc
        (((sizeofRefcnt check + text.length) % SIZE_MOD + 1) % SIZE_MOD))).set ans
        (some (rawBlock check
          (((sizeofRefcnt check + text.length) % SIZE_MOD + 1) % SIZE_MOD))))
      ans (((sizeofRefcnt check + text.length) % SIZE_MOD + 1) % SIZE_MOD)
  obtain ⟨k1, k2, k3, k4⟩ := commitStore_keeps m3 ans b2 (strcpy b2 (text ++ 0 :: rest))
    (fun b1 h => strcpy_keeps b2 b1 _ h)
  refine ⟨(commitStore m3 ans b2 (strcpy b2 (text ++ 0 :: rest))).2.set ans
      (some (commitStore m3 ans b2 (strcpy b2 (text ++ 0 :: rest))).1), _, ?_,
    Mem.set_blocks_same _ _ _, k1.trans hsz, k2.trans hmagic, ?_, ?_⟩
  · simp only [refcnt_strdup, hlen, libc_malloc, ha, if_false, Mem.set_blocks_same]
    simp only [] at he
    rw [he]
  · rw [Mem.set_calls, k4, hcalls]; rfl
  · intro a hane
    rw [Mem.set_blocks_other _ _ _ _ hane, k3, hblocks, Mem.set_blocks_other _ _ _ _ hane]
    rfl

/-- On a block that passes the check `refcnt_realloc` returns, whatever the
size: `NULL` when `realloc` answers `NULL`, the new region start plus the
offset of the payload otherwise. -/
theorem refcnt_realloc_returns (check : Bool) (ans : Addr) (m : Mem) (base : Addr) (b : Block)
    (len : Nat) (hb : m.blocks base = some b) (hm : check = true → magicOk b = some true) :
    (ans ≠ NULL →
      refcnt_realloc check ans m (base + offsetofData check) len
        = Outcome.ok (ans + offsetofData check)
            (((m.log (LibcCall.realloc base ((sizeofRefcnt check + len) % SIZE_MOD))).set base
                none).set ans
              (some (resized check b ((sizeofRefcnt check + len) % SIZE_MOD))))) ∧
    ((sizeofRefcnt check + len) % SIZE_MOD ≠ 0 →
      refcnt_realloc check NULL m (base + offsetofData check) len
        = Outcome.ok NULL
            (m.log (LibcCall.realloc base ((sizeofRefcnt check + len) % SIZE_MOD)))) ∧
    ((sizeofRefcnt check + len) % SIZE_MOD = 0 →
      refcnt_realloc check NULL m (base + offsetofData check) len
        = Outcome.ok NULL ((m.log (LibcCall.realloc base 0)).set base none)) := by
  have hpass : (if check = true then magicOk b else some true) = some true := by
    cases check
    · rfl
    · exact hm rfl
  refine ⟨fun ha => ?_, fun hreq => ?_, fun hreq => ?_⟩
  · simp only [refcnt_realloc, handle_not_below, if_false, Nat.add_sub_cancel, hb, hpass,
      libc_realloc, ha]
  · simp only [refcnt_realloc, handle_not_below, if_false, Nat.add_sub_cancel, hb, hpass,
      libc_realloc, if_true, hreq]
  · simp only [refcnt_realloc, handle_not_below, if_false, Nat.add_sub_cancel, hb, hpass,
      libc_realloc, if_true, hreq]

/-! ## C7: out of memory -/

/-- C7: each of `refcnt_malloc`, `refcnt_strdup` and `refcnt_realloc` returns
`NULL` if and only if the allocator answered `NULL` to its request, for every
size.  When the allocator answers `NULL` the function returns `NULL` as an
ordinary value (no failed assertion, no undefined behaviour) and no block is
created: every region that is live afterwards was live before, with the same
contents.  When the allocator answers a region the function returns the
non-null handle `region + offsetof(_refcnt, data)`. -/
theorem returns_null_iff_allocator_null (check : Bool) (ans : Addr) (m : Mem) :
    (∀ len : Nat, ∃ h m1, refcnt_malloc check ans m len = Outcome.ok h m1 ∧
      (h = NULL ↔ ans = NULL) ∧
      (ans ≠ NULL → h = ans + offsetofData check) ∧
      (ans = NULL → ∀ a b1, m1.blocks a = some b1 → m.blocks a = some b1)) ∧
    (∀ text rest : List Nat, (∀ c ∈ text, c ≠ 0) →
      ∃ h m1, refcnt_strdup check ans m (text ++ 0 :: rest) = Outcome.ok h m1 ∧
        (h = NULL ↔ ans = NULL) ∧
        (ans ≠ NULL → h = ans + offsetofData check) ∧
        (ans = NULL → ∀ a b1, m1.blocks a = some b1 → m.blocks a = some b1)) ∧
    (∀ (base : Addr) (b : Block) (len : Nat), m.blocks base = some b →
      (check = true → magicOk b = some true) →
      ∃ h m1, refcnt_realloc check ans m (base + offsetofData check) len = Outcome.ok h m1 ∧
        (h = NULL ↔ ans = NULL) ∧
        (ans ≠ NULL → h = ans + offsetofData check) ∧
        (ans = NULL → ∀ a b1, m1.blocks a = some b1 → m.blocks a = some b1)) := by
  refine ⟨fun len => ?_, fun text rest hz => ?_, fun base b len hb hm => ?_⟩
  · by_cases ha : ans = NULL
    · subst ha
      refine ⟨NULL, m.log (LibcCall.malloc ((sizeofRefcnt check + len) % SIZE_MOD)), ?_,
        ⟨fun _ => rfl, fun _ => rfl⟩, fun h => absurd rfl h, fun _ a b1 h => h⟩
      simp [refcnt_malloc, libc_malloc]
    · obtain ⟨m1, b1, hrun, _⟩ := refcnt_malloc_returns check ans m len ha
      exact ⟨_, m1, hrun, ⟨fun h => absurd h (handle_ne_null check ans), fun h => absurd h ha⟩,
        fun _ => rfl, fun h => absurd h ha⟩
  · by_cases ha : ans = NULL
    · subst ha
      refine ⟨NULL, m.log (LibcCall.malloc
          (((sizeofRefcnt check + text.length) % SIZE_MOD + 1) % SIZE_MOD)), ?_,
        ⟨fun _ => rfl, fun _ => rfl⟩, fun h => absurd rfl h, fun _ a b1 h => h⟩
      simp [refcnt_strdup, libc_malloc, strlen_terminated text rest hz]
    · obtain ⟨m1, b1, hrun, _⟩ := refcnt_strdup_returns check ans m text rest hz ha
      exact ⟨_, m1, hrun, ⟨fun h => absurd h (handle_ne_null check ans), fun h => absurd h ha⟩,
        fun _ => rfl, fun h => absurd h ha⟩
  · obtain ⟨hmoved, hnull, hzero⟩ := refcnt_realloc_returns check ans m base b len hb hm
    by_cases ha : ans = NULL
    · subst ha
      by_cases hreq : (sizeofRefcnt check + len) % SIZE_MOD = 0
      · refine ⟨NULL, _, hzero hreq, ⟨fun _ => rfl, fun _ => rfl⟩, fun h => absurd rfl h,
          fun _ a b1 h => ?_⟩
        by_cases hab : a = base
        · subst hab
          rw [Mem.set_blocks_same] at h
          cases h
        · rw [Mem.set_blocks_other _ _ _ _ hab] at h
          exact h
      · exact ⟨NULL, _, hnull hreq, ⟨fun _ => rfl, fun _ => rfl⟩, fun h => absurd rfl h,
          fun _ a b1 h => h⟩
    · exact ⟨_, _, hmoved ha,
        ⟨fun h => absurd h (handle_ne_null check ans), fun h => absurd h ha⟩,
        fun _ => rfl, fun h => absurd h ha⟩

/-- Witness for C7: growing the "Hello" block, once with `realloc` answering
`NULL` and once with `realloc` answering the region at 32. -/
theorem returns_null_iff_allocator_null_witness :
    (∃ h m1, refcnt_realloc true NULL (helloMem 1) (16 + offsetofData true) 100
        = Outcome.ok h m1 ∧
      (h = NULL ↔ NULL = NULL) ∧
      (NULL ≠ NULL → h = NULL + offsetofData true) ∧
      (NULL = NULL → ∀ a b1, m1.blocks a = some b1 → (helloMem 1).blocks a = some b1)) ∧
    (∃ h m1, refcnt_realloc true 32 (helloMem 1) (16 + offsetofData true) 100
        = Outcome.ok h m1 ∧
      (h = NULL ↔ (32 : Addr) = NULL) ∧
      ((32 : Addr) ≠ NULL → h = 32 + offsetofData true) ∧
      ((32 : Addr) = NULL → ∀ a b1, m1.blocks a = some b1 →
        (helloMem 1).blocks a = some b1)) :=
  ⟨(returns_null_iff_allocator_null true NULL (helloMem 1)).2.2 16 (helloBlock 1) 100
      (by decide) (by decide),
    (returns_null_iff_allocator_null true 32 (helloMem 1)).2.2 16 (helloBlock 1) 100
      (by decide) (by decide)⟩

/-! ## The sentinel along a run of calls -/

theorem storeRefcount_magicOk (check : Bool) (b b1 : Block) (v : Nat)
    (h : b.storeRefcount check v = some b1) : magicOk b1 = magicOk b := by
  unfold Block.storeRefcount at h
  split at h
  · cases h; rfl
  · cases h

/-- The two atomic updates of the refcount leave the sentinel alone. -/
theorem fetch_add_magicOk (check : Bool) (b b1 : Block) (old k : Nat)
    (h : atomic_fetch_add check b k = some (old, b1)) : magicOk b1 = magicOk b := by
  unfold atomic_fetch_add at h
  cases hl : b.loadRefcount check with
  | none => simp [hl] at h
  | some o =>
    simp only [hl] at h
    cases hs : b.storeRefcount check ((o + k) % UINT_MOD) with
    | none => simp [hs] at h
    | some b2 =>
      simp only [hs, Option.some.injEq, Prod.mk.injEq] at h
      rw [← h.2]
      exact storeRefcount_magicOk check b b2 _ hs

theorem fetch_sub_magicOk (check : Bool) (b b1 : Block) (old k : Nat)
    (h : atomic_fetch_sub check b k = some (old, b1)) : magicOk b1 = magicOk b := by
  unfold atomic_fetch_sub at h
  cases hl : b.loadRefcount check with
  | none => simp [hl] at h
  | some o =>
    simp only [hl] at h
    cases hs : b.storeRefcount check ((o + (UINT_MOD - k % UINT_MOD)) % UINT_MOD) with
    | none => simp [hs] at h
    | some b2 =>
      simp only [hs, Option.some.injEq, Prod.mk.injEq] at h
      rw [← h.2]
      exact storeRefcount_magicOk check b b2 _ hs

/-- A region that holds the sentinel where it has room for it never fails the
check, and passes it when it has room. -/
theorem magicOk_of_magic (b : Block)
    (h : b.magic = if 4 ≤ b.size then some (intOfUInt MAGIC) else none) :
    magicOk b ≠ some false ∧ (4 ≤ b.size → magicOk b = some true) := by
  have hconv : uintOfInt (intOfUInt MAGIC) = MAGIC := by decide
  by_cases h4 : 4 ≤ b.size
  · have : magicOk b = some true := by
      simp [magicOk, Block.loadMagic, h4, h, hconv]
    exact ⟨by rw [this]; simp, fun _ => this⟩
  · have : magicOk b = none := by simp [magicOk, Block.loadMagic, h4]
    exact ⟨by rw [this]; simp, fun h => absurd h h4⟩

/-- After `realloc`, whatever the new size, a block that passed the check does
not fail it. -/
theorem magicOk_resized_any (b : Block) (n : Nat) (hm : magicOk b = some true) :
    magicOk (resized true b n) ≠ some false := by
  by_cases hn : 4 ≤ n
  · rw [(magicOk_resized b n hm hn).1]; simp
  · have : magicOk (resized true b n) = none := by
      have hs : ¬ 4 ≤ (resized true b n).size := hn
      simp [magicOk, Block.loadMagic, hs]
    rw [this]; simp

/-- No sequence of calls on a handle whose block does not fail the check ends
in a failed assertion. -/
theorem runCalls_never_asserts (cs : List Call) :
    ∀ (m : Mem) (base : Addr), (∀ b, m.blocks base = some b → magicOk b ≠ some false) →
      (runCalls true m (base + offsetofData true) cs).isAssertFail = false := by
  induction cs with
  | nil => intro m base _; rfl
  | cons call cs ih =>
    intro m base hinv
    cases hb : m.blocks base with
    | none =>
      cases call <;>
        simp [runCalls, refcnt_ref, refcnt_unref, refcnt_realloc, handle_not_below, hb,
          Outcome.isAssertFail]
    | some b =>
      cases hm : magicOk b with
      | none =>
        cases call <;>
          simp [runCalls, refcnt_ref, refcnt_unref, refcnt_realloc, handle_not_below, hb, hm,
            Outcome.isAssertFail]
      | some t =>
        cases t with
        | false => exact absurd hm (hinv b hb)
        | true =>
          cases call with
          | dup =>
            cases hf : atomic_fetch_add true b 1 with
            | none =>
              simp [runCalls, refcnt_ref, handle_not_below, hb, hm, hf, Outcome.isAssertFail]
            | some r =>
              obtain ⟨old, b1⟩ := r
              have hrun : runCalls true m (base + offsetofData true) (Call.dup :: cs)
                  = runCalls true (m.set base (some b1)) (base + offsetofData true) cs := by
                simp [runCalls, refcnt_ref, handle_not_below, hb, hm, hf]
              rw [hrun]
              apply ih
              intro b2 hb2
              rw [Mem.set_blocks_same] at hb2
              cases hb2
              rw [fetch_add_magicOk true b b1 old 1 hf, hm]
              simp
          | release =>
            cases hf : atomic_fetch_sub true b 1 with
            | none =>
              simp [runCalls, refcnt_unref, handle_not_below, hb, hm, hf, Outcome.isAssertFail]
            | some r =>
              obtain ⟨old, b1⟩ := r
              by_cases hold : old = 1
              · have hrun : runCalls true m (base + offsetofData true) (Call.release :: cs)
                    = runCalls true
                        (((m.set base (some b1)).log (LibcCall.free base)).set base none)
                        (base + offsetofData true) cs := by
                  simp [runCalls, refcnt_unref, handle_not_below, hb, hm, hf, hold, libc_free,
                    Mem.set_blocks_same]
                rw [hrun]
                apply ih
                intro b2 hb2
                rw [Mem.set_blocks_same] at hb2
                cases hb2
              · have hrun : runCalls true m (base + offsetofData true) (Call.release :: cs)
                    = runCalls true (m.set base (some b1)) (base + offsetofData true) cs := by
                  simp [runCalls, refcnt_unref, handle_not_below, hb, hm, hf, hold]
                rw [hrun]
                apply ih
                intro b2 hb2
                rw [Mem.set_blocks_same] at hb2
                cases hb2
                rw [fetch_sub_magicOk true b b1 old 1 hf, hm]
                simp
          | resize ans len =>
            obtain ⟨hmoved, hnull, hzero⟩ :=
              refcnt_realloc_returns true ans m base b len hb (fun _ => hm)
            by_cases ha : ans = NULL
            · subst ha
              by_cases hreq : (sizeofRefcnt true + len) % SIZE_MOD = 0
              · simp only [runCalls, hzero hreq, if_true]
                apply ih
                intro b2 hb2
                rw [Mem.set_blocks_same] at hb2
                cases hb2
              · simp only [runCalls, hnull hreq, if_true]
                apply ih
                intro b2 hb2
                rw [Mem.log_blocks, hb] at hb2
                cases hb2
                rw [hm]; simp
            · simp only [runCalls, hmoved ha, handle_ne_null, if_false]
              apply ih
              intro b2 hb2
              rw [Mem.set_blocks_same] at hb2
              cases hb2
              exact magicOk_resized_any b _ hm

/-! ## C13: genuine handles pass the check -/

/-- C13: `0xdeadbeef` stored into the `int` field is -559038737, and read back
and converted to `unsigned` it is `0xdeadbeef` again.  With `REFCNT_CHECK`, for
every size, the region behind the handle returned by `refcnt_malloc` or
`refcnt_strdup` holds that sentinel and passes the check wherever it has the
4 bytes of the field, which is always so when the size computation does not
wrap; no sequence of `refcnt_ref`, `refcnt_unref` and `refcnt_realloc` calls on
the handle, and on the handles those resizes return, ends in a failed
assertion.  The same holds for the handle returned by `refcnt_realloc` on a
block that passes the check, the sentinel being the one the block held.  On a
block that passes, none of the three functions fails its assertion. -/
theorem genuine_handles_pass_check (ans : Addr) (m : Mem) (ha : ans ≠ NULL) :
    (intOfUInt MAGIC = -559038737 ∧ uintOfInt (intOfUInt MAGIC) = MAGIC) ∧
    (∀ len : Nat, ∃ m1 b1,
      refcnt_malloc true ans m len = Outcome.ok (ans + offsetofData true) m1 ∧
      m1.blocks ans = some b1 ∧
      (4 ≤ b1.size → b1.magic = some (intOfUInt MAGIC) ∧ magicOk b1 = some true) ∧
      (sizeofRefcnt true + len < SIZE_MOD → 4 ≤ b1.size) ∧
      ∀ cs : List Call,
        (runCalls true m1 (ans + offsetofData true) cs).isAssertFail = false) ∧
    (∀ text rest : List Nat, (∀ c ∈ text, c ≠ 0) → ∃ m1 b1,
      refcnt_strdup true ans m (text ++ 0 :: rest) = Outcome.ok (ans + offsetofData true) m1 ∧
      m1.blocks ans = some b1 ∧
      (4 ≤ b1.size → b1.magic = some (intOfUInt MAGIC) ∧ magicOk b1 = some true) ∧
      (sizeofRefcnt true + text.length + 1 < SIZE_MOD → 4 ≤ b1.size) ∧
      ∀ cs : List Call,
        (runCalls true m1 (ans + offsetofData true) cs).isAssertFail = false) ∧
    (∀ (base : Addr) (b : Block) (len : Nat), m.blocks base = some b →
      magicOk b = some true → ∃ m1 b1,
      refcnt_realloc true ans m (base + offsetofData true) len
        = Outcome.ok (ans + offsetofData true) m1 ∧
      m1.blocks ans = some b1 ∧
      (4 ≤ b1.size → b1.magic = b.magic ∧ magicOk b1 = some true) ∧
      (sizeofRefcnt true + len < SIZE_MOD → 4 ≤ b1.size) ∧
      ∀ cs : List Call,
        (runCalls true m1 (ans + offsetofData true) cs).isAssertFail = false) ∧
    (∀ (base : Addr) (b : Block), m.blocks base = some b → magicOk b = some true →
      (refcnt_ref true m (base + offsetofData true)).isAssertFail = false ∧
      (refcnt_unref true m (base + offsetofData true)).isAssertFail = false ∧
      ∀ (ans1 : Addr) (len : Nat),
        (refcnt_realloc true ans1 m (base + offsetofData true) len).isAssertFail = false) := by
  refine ⟨⟨by decide, by decide⟩, fun len => ?_, fun text rest hz => ?_,
    fun base b len hb hm => ?_, fun base b hb hm => passes_not_assertFail m base b hb hm⟩
  · obtain ⟨m1, b1, hrun, hb1, hsz, _, hmagic, _, _⟩ := refcnt_malloc_returns true ans m len ha
    have hmag : b1.magic = if 4 ≤ b1.size then some (intOfUInt MAGIC) else none := by
      rw [hmagic, hsz]; simp
    obtain ⟨hne, hok⟩ := magicOk_of_magic b1 hmag
    refine ⟨m1, b1, hrun, hb1, fun h4 => ⟨by rw [hmag, if_pos h4], hok h4⟩, fun hfit => ?_,
      fun cs => runCalls_never_asserts cs m1 ans (fun b2 hb2 => ?_)⟩
    · rw [hsz, Nat.mod_eq_of_lt hfit]
      simp [sizeofRefcnt]
      omega
    · rw [hb1] at hb2
      cases hb2
      exact hne
  · obtain ⟨m1, b1, hrun, hb1, hsz, hmagic, _, _⟩ :=
      refcnt_strdup_returns true ans m text rest hz ha
    have hmag : b1.magic = if 4 ≤ b1.size then some (intOfUInt MAGIC) else none := by
      rw [hmagic, hsz]; simp
    obtain ⟨hne, hok⟩ := magicOk_of_magic b1 hmag
    refine ⟨m1, b1, hrun, hb1, fun h4 => ⟨by rw [hmag, if_pos h4], hok h4⟩, fun hfit => ?_,
      fun cs => runCalls_never_asserts cs m1 ans (fun b2 hb2 => ?_)⟩
    · have h1 : (sizeofRefcnt true + text.length) % SIZE_MOD = sizeofRefcnt true + text.length :=
        Nat.mod_eq_of_lt (by omega)
      rw [hsz, h1, Nat.mod_eq_of_lt hfit]
      simp [sizeofRefcnt]
      omega
    · rw [hb1] at hb2
      cases hb2
      exact hne
  · refine ⟨_, _, (refcnt_realloc_returns true ans m base b len hb (fun _ => hm)).1 ha,
      Mem.set_blocks_same _ _ _, fun h4 => ?_, fun hfit => ?_,
      fun cs => runCalls_never_asserts cs _ ans (fun b2 hb2 => ?_)⟩
    · obtain ⟨hok, hkeep⟩ := magicOk_resized b _ hm h4
      exact ⟨hkeep, hok⟩
    · show 4 ≤ (sizeofRefcnt true + len) % SIZE_MOD
      rw [Nat.mod_eq_of_lt hfit]
      simp [sizeofRefcnt]
      omega
    · rw [Mem.set_blocks_same] at hb2
      cases hb2
      exact magicOk_resized_any b _ hm

/-- Witness for C13: the block of a 5-byte `refcnt_malloc` in the region at 16. -/
theorem genuine_handles_pass_check_witness :
    ∃ m1 b1,
      refcnt_malloc true 16 Mem.empty 5 = Outcome.ok (16 + offsetofData true) m1 ∧
      m1.blocks 16 = some b1 ∧
      (4 ≤ b1.size → b1.magic = some (intOfUInt MAGIC) ∧ magicOk b1 = some true) ∧
      (sizeofRefcnt true + 5 < SIZE_MOD → 4 ≤ b1.size) ∧
      ∀ cs : List Call,
        (runCalls true m1 (16 + offsetofData true) cs).isAssertFail = false :=
  (genuine_handles_pass_check 16 Mem.empty (by decide)).2.1 5

/-! ## C17: from the handle back to the header -/

/-- C17, as stated, fails when the size computation wraps: with `REFCNT_CHECK`
undefined, `refcnt_malloc(SIZE_MAX)` asks for 3 bytes and returns the region
start plus 4, a handle beyond the 3-byte region, whose payload capacity is 0
and not the size requested; a `refcnt_realloc` to `SIZE_MAX` payload bytes
does the same. -/
theorem capacity_below_request :
    (sizeofRefcnt false + 18446744073709551615) % SIZE_MOD = 3 ∧
    (refcnt_malloc false 16 Mem.empty 18446744073709551615).value = some 20 ∧
    ((refcnt_malloc false 16 Mem.empty 18446744073709551615).blockAt 16).map
      (fun b => (b.size, b.data.length)) = some (3, 0) ∧
    (16 : Nat) + 3 < 20 ∧
    maxMem.blocks 16 = some maxBlock ∧ Genuine false maxBlock 4294967295 ∧
    (refcnt_realloc false 32 maxMem 20 18446744073709551615).value = some 36 ∧
    ((refcnt_realloc false 32 maxMem 20 18446744073709551615).blockAt 32).map
      (fun b => (b.size, b.data.length)) = some (3, 0) ∧
    (32 : Nat) + 3 < 36 ∧ (0 : Nat) ≠ 18446744073709551615 := by
  decide

/-- C17 (amended): `sizeof(_refcnt)` equals `offsetof(_refcnt, data)`, one
offset for every block of a build.  For every size, the handle returned by
`refcnt_malloc`, `refcnt_strdup` and `refcnt_realloc` when the allocator
answers a region is the region start plus that offset, and subtracting the
offset gives the region start again, where the block allocated lives; its size
is the header size plus the size requested modulo `SIZE_MAX + 1`.  When that
sum does not exceed `SIZE_MAX`, the region holds the header and exactly the
payload bytes requested.  `refcnt_ref`, `refcnt_unref` and `refcnt_realloc`
act on the block found at the handle minus the offset. -/
theorem handle_header_round_trip (check : Bool) (ans : Addr) (m : Mem) (ha : ans ≠ NULL) :
    sizeofRefcnt check = offsetofData check ∧
    (∀ len : Nat, ∃ m1 b1,
      refcnt_malloc check ans m len = Outcome.ok (ans + offsetofData check) m1 ∧
      ans + offsetofData check - offsetofData check = ans ∧
      m1.blocks (ans + offsetofData check - offsetofData check) = some b1 ∧
      b1.size = (sizeofRefcnt check + len) % SIZE_MOD ∧
      (sizeofRefcnt check + len < SIZE_MOD →
        b1.size = offsetofData check + len ∧ b1.data.length = len)) ∧
    (∀ text rest : List Nat, (∀ c ∈ text, c ≠ 0) → ∃ m1 b1,
      refcnt_strdup check ans m (text ++ 0 :: rest) = Outcome.ok (ans + offsetofData check) m1 ∧
      ans + offsetofData check - offsetofData check = ans ∧
      m1.blocks (ans + offsetofData check - offsetofData check) = some b1 ∧
      b1.size = ((sizeofRefcnt check + text.length) % SIZE_MOD + 1) % SIZE_MOD ∧
      (sizeofRefcnt check + text.length + 1 < SIZE_MOD →
        b1.size = offsetofData check + (text.length + 1) ∧
        b1.data.length = text.length + 1)) ∧
    (∀ (base : Addr) (b : Block) (len : Nat), m.blocks base = some b →
      (check = true → magicOk b = some true) → ∃ m1 b1,
      refcnt_realloc check ans m (base + offsetofData check) len
        = Outcome.ok (ans + offsetofData check) m1 ∧
      ans + offsetofData check - offsetofData check = ans ∧
      m1.blocks (ans + offsetofData check - offsetofData check) = some b1 ∧
      b1.size = (sizeofRefcnt check + len) % SIZE_MOD ∧
      (sizeofRefcnt check + len < SIZE_MOD →
        b1.size = offsetofData check + len ∧ b1.data.length = len)) ∧
    (∀ (base : Addr) (b : Block) (r : Nat), m.blocks base = some b → Genuine check b r →
      (refcnt_ref check m (base + offsetofData check)).blockAt base
        = some (b.withCount ((r + 1) % UINT_MOD)) ∧
      (r ≠ 1 → (refcnt_unref check m (base + offsetofData check)).blockAt base
        = some (b.withCount ((r + (UINT_MOD - 1)) % UINT_MOD))) ∧
      (r = 1 → (refcnt_unref check m (base + offsetofData check)).callsMade
        = m.calls ++ [LibcCall.free base]) ∧
      ∀ (ans1 : Addr) (len : Nat),
        (refcnt_realloc check ans1 m (base + offsetofData check) len).callsMade
          = m.calls ++ [LibcCall.realloc base ((sizeofRefcnt check + len) % SIZE_MOD)]) := by
  have hoff : sizeofRefcnt check = offsetofData check := by cases check <;> rfl
  refine ⟨hoff, fun len => ?_, fun text rest hz => ?_, fun base b len hb hm => ?_,
    fun base b r hb hg => ⟨?_, fun h1 => ?_, fun h1 => ?_, fun ans1 len => ?_⟩⟩
  · obtain ⟨m1, b1, hrun, hb1, hsz, hdata, _, _, _⟩ := refcnt_malloc_returns check ans m len ha
    refine ⟨m1, b1, hrun, Nat.add_sub_cancel _ _, ?_, hsz, fun hfit => ?_⟩
    · rw [Nat.add_sub_cancel]; exact hb1
    · rw [hsz, hdata, Nat.mod_eq_of_lt hfit, hoff]
      exact ⟨rfl, Nat.add_sub_cancel_left _ _⟩
  · by_cases hfit : sizeofRefcnt check + text.length + 1 < SIZE_MOD
    · have h1 : (sizeofRefcnt check + text.length) % SIZE_MOD
          = sizeofRefcnt check + text.length := Nat.mod_eq_of_lt (by omega)
      refine ⟨_, freshBlock check (text.map some ++ [some 0]),
        refcnt_strdup_ok check ans m text rest hz ha hfit, Nat.add_sub_cancel _ _, ?_,
        ?_, fun _ => ⟨?_, ?_⟩⟩
      · rw [Nat.add_sub_cancel]; exact Mem.set_blocks_same _ _ _
      · rw [h1, Nat.mod_eq_of_lt hfit]; simp [freshBlock]; omega
      · rw [← hoff]; simp [freshBlock]
      · simp [freshBlock]
    · obtain ⟨m1, b1, hrun, hb1, hsz, _, _, _⟩ :=
        refcnt_strdup_returns check ans m text rest hz ha
      refine ⟨m1, b1, hrun, Nat.add_sub_cancel _ _, ?_, hsz, fun h => absurd h hfit⟩
      rw [Nat.add_sub_cancel]; exact hb1
  · refine ⟨_, resized check b ((sizeofRefcnt check + len) % SIZE_MOD),
      (refcnt_realloc_returns check ans m base b len hb hm).1 ha,
      Nat.add_sub_cancel _ _, ?_, rfl, fun hfit => ?_⟩
    · rw [Nat.add_sub_cancel]; exact Mem.set_blocks_same _ _ _
    · rw [Nat.mod_eq_of_lt hfit, ← hoff]
      exact ⟨rfl, by rw [resized_length, Nat.add_sub_cancel_left]⟩
  · rw [refcnt_ref_genuine check m base b r hb hg]
    exact Mem.set_blocks_same _ _ _
  · rw [refcnt_unref_keep check m base b r hb hg h1]
    exact Mem.set_blocks_same _ _ _
  · subst h1
    rw [refcnt_unref_last check m base b hb hg]
    rfl
  · by_cases ha1 : ans1 = NULL
    · subst ha1
      by_cases hreq : (sizeofRefcnt check + len) % SIZE_MOD = 0
      · rw [refcnt_realloc_zero check m base b r len hb hg hreq, hreq]
        rfl
      · rw [refcnt_realloc_null check m base b r len hb hg hreq]
        rfl
    · rw [refcnt_realloc_moved check ans1 m base b r len hb hg ha1]
      rfl

/-- Witness for C17 (amended): a 5-byte `refcnt_malloc` in the region at 16
returns the handle 24, and the block at 24 - 8 has 8 + 5 bytes, 5 of them
payload. -/
theorem handle_header_round_trip_witness :
    ∃ m1 b1,
      refcnt_malloc true 16 Mem.empty 5 = Outcome.ok (16 + offsetofData true) m1 ∧
      16 + offsetofData true - offsetofData true = 16 ∧
      m1.blocks (16 + offsetofData true - offsetofData true) = some b1 ∧
      b1.size = (sizeofRefcnt true + 5) % SIZE_MOD ∧
      (sizeofRefcnt true + 5 < SIZE_MOD →
        b1.size = offsetofData true + 5 ∧ b1.data.length = 5) :=
  (handle_header_round_trip true 16 Mem.empty (by decide)).2.1 5

/-! ## C18: a resize that returns `NULL` -/

/-- C18, as stated, fails when the request wraps to zero bytes: resizing the
"Hello" block to `SIZE_MAX - 7` payload bytes asks `realloc` for 0 bytes, which
glibc answers with `NULL` after freeing the region.  `refcnt_realloc` returns
`NULL`, as it does for a reallocation that failed, but the block is gone and
the handle is dead: a later `refcnt_ref` or `refcnt_unref` on it reads a freed
region. -/
theorem null_resize_frees_block :
    (helloMem 1).blocks 16 = some (helloBlock 1) ∧ Genuine true (helloBlock 1) 1 ∧
    (sizeofRefcnt true + 18446744073709551608) % SIZE_MOD = 0 ∧
    (refcnt_realloc true NULL (helloMem 1) 24 18446744073709551608).value = some NULL ∧
    (refcnt_realloc true NULL (helloMem 1) 24 18446744073709551608).callsMade
      = [LibcCall.malloc 14, LibcCall.realloc 16 0] ∧
    (refcnt_realloc true NULL (helloMem 1) 24 18446744073709551608).blockAt 16 = none ∧
    (refcnt_ref true (refcnt_realloc true NULL (helloMem 1) 24 18446744073709551608).heap
      24).isUndefined = true ∧
    (refcnt_unref true (refcnt_realloc true NULL (helloMem 1) 24 18446744073709551608).heap
      24).isUndefined = true := by
  decide

/-- C18 (amended): when `realloc` answers `NULL` to a request of at least one
byte, that is when `(sizeof(_refcnt) + len) mod 2^64` is not 0, `refcnt_realloc`
on a live block returns `NULL`; every region, the block itself included, is
where and what it was (same address, payload, refcount and sentinel), only the
`realloc` call is recorded and nothing is freed.  The handle is still good: a
later `refcnt_ref` on it succeeds as before. -/
theorem failed_resize_keeps_block (check : Bool) (m : Mem) (base : Addr) (b : Block)
    (r len : Nat) (hb : m.blocks base = some b) (hg : Genuine check b r)
    (hreq : (sizeofRefcnt check + len) % SIZE_MOD ≠ 0) :
    ∃ m1, refcnt_realloc check NULL m (base + offsetofData check) len = Outcome.ok NULL m1 ∧
      m1.blocks = m.blocks ∧
      m1.blocks base = some b ∧
      m1.calls = m.calls
        ++ [LibcCall.realloc base ((sizeofRefcnt check + len) % SIZE_MOD)] ∧
      countFrees m1.calls = countFrees m.calls ∧
      refcnt_ref check m1 (base + offsetofData check)
        = Outcome.ok (base + offsetofData check)
            (m1.set base (some { b with refcount := some ((r + 1) % UINT_MOD) })) := by
  refine ⟨_, refcnt_realloc_null check m base b r len hb hg hreq, rfl, hb, rfl, ?_, ?_⟩
  · rw [Mem.log_calls, countFrees_append]
    rfl
  · exact refcnt_ref_genuine check _ base b r hb hg

/-- Witness for C18 (amended): growing the "Hello" block to 100 payload bytes
fails. -/
theorem failed_resize_keeps_block_witness :
    ∃ m1, refcnt_realloc true NULL (helloMem 1) (16 + offsetofData true) 100
        = Outcome.ok NULL m1 ∧
      m1.blocks = (helloMem 1).blocks ∧
      m1.blocks 16 = some (helloBlock 1) ∧
      m1.calls = (helloMem 1).calls
        ++ [LibcCall.realloc 16 ((sizeofRefcnt true + 100) % SIZE_MOD)] ∧
      countFrees m1.calls = countFrees (helloMem 1).calls ∧
      refcnt_ref true m1 (16 + offsetofData true)
        = Outcome.ok (16 + offsetofData true)
            (m1.set 16 (some { helloBlock 1 with refcount := some ((1 + 1) % UINT_MOD) })) :=
  failed_resize_keeps_block true (helloMem 1) 16 (helloBlock 1) 1 100 (by decide) (by decide)
    (by decide)

/-! ## C11: tracing -/

/-- C11: with `REFCNT_TRACE` defined each of the five public operations writes
exactly one record to `stderr`, the text
`file:line:(function) _refcnt_name(arguments)` of its call site, and the
operation then runs on the heap as it was: its outcome is the outcome of the
untraced function on the same arguments, be it a value and a heap, a failed
assertion or undefined behaviour, and the record is there in each case.  The
traced operation is the untraced one run after the write.  Without
`REFCNT_TRACE` nothing is written. -/
theorem trace_is_transparent (check : Bool) (site : Site) (arg arg2 : String) (p : Proc)
    (ans : Addr) (ptr : Addr) (len : Nat) (str : List Nat) :
    (api_malloc true check site arg ans p len
        = (p.stderr ++ [site.file ++ ":" ++ toString site.line ++ ":(" ++ site.func ++ ") "
              ++ ("_refcnt_malloc(" ++ arg ++ ")")],
           refcnt_malloc check ans p.mem len) ∧
      api_malloc false check site arg ans p len = (p.stderr, refcnt_malloc check ans p.mem len) ∧
      api_malloc true check site arg ans p len
        = api_malloc false check site arg ans
            (fprintf_stderr p site.file site.line site.func ("_refcnt_malloc(" ++ arg ++ ")"))
            len) ∧
    (api_realloc true check site arg arg2 ans p ptr len
        = (p.stderr ++ [site.file ++ ":" ++ toString site.line ++ ":(" ++ site.func ++ ") "
              ++ ("_refcnt_realloc(" ++ arg ++ ", " ++ arg2 ++ ")")],
           refcnt_realloc check ans p.mem ptr len) ∧
      api_realloc false check site arg arg2 ans p ptr len
        = (p.stderr, refcnt_realloc check ans p.mem ptr len) ∧
      api_realloc true check site arg arg2 ans p ptr len
        = api_realloc false check site arg arg2 ans
            (fprintf_stderr p site.file site.line site.func
              ("_refcnt_realloc(" ++ arg ++ ", " ++ arg2 ++ ")"))
            ptr len) ∧
    (api_ref true check site arg p ptr
        = (p.stderr ++ [site.file ++ ":" ++ toString site.line ++ ":(" ++ site.func ++ ") "
              ++ ("_refcnt_ref(" ++ arg ++ ")")],
           refcnt_ref check p.mem ptr) ∧
      api_ref false check site arg p ptr = (p.stderr, refcnt_ref check p.mem ptr) ∧
      api_ref true check site arg p ptr
        = api_ref false check site arg
            (fprintf_stderr p site.file site.line site.func ("_refcnt_ref(" ++ arg ++ ")"))
            ptr) ∧
    (api_unref true check site arg p ptr
        = (p.stderr ++ [site.file ++ ":" ++ toString site.line ++ ":(" ++ site.func ++ ") "
              ++ ("_refcnt_unref(" ++ arg ++ ")")],
           refcnt_unref check p.mem ptr) ∧
      api_unref false check site arg p ptr = (p.stderr, refcnt_unref check p.mem ptr) ∧
      api_unref true check site arg p ptr
        = api_unref false check site arg
            (fprintf_stderr p site.file site.line site.func ("_refcnt_unref(" ++ arg ++ ")"))
            ptr) ∧
    (api_strdup true check site arg ans p str
        = (p.stderr ++ [site.file ++ ":" ++ toString site.line ++ ":(" ++ site.func ++ ") "
              ++ ("_refcnt_strdup(" ++ arg ++ ")")],
           refcnt_strdup check ans p.mem str) ∧
      api_strdup false check site arg ans p str = (p.stderr, refcnt_strdup check ans p.mem str) ∧
      api_strdup true check site arg ans p str
        = api_strdup false check site arg ans
            (fprintf_stderr p site.file site.line site.func ("_refcnt_strdup(" ++ arg ++ ")"))
            str) ∧
    (api_ref true check site arg p ptr).1.length = p.stderr.length + 1 := by
  refine ⟨⟨rfl, rfl, rfl⟩, ⟨rfl, rfl, rfl⟩, ⟨rfl, rfl, rfl⟩, ⟨rfl, rfl, rfl⟩, ⟨rfl, rfl, rfl⟩, ?_⟩
  simp [api_ref, _REFCNT_TRACE, fprintf_stderr]

/-- Witness for C11: the traced `refcnt_ref(str)` of line 13 of `test.c`, on
the "Hello" block and on a block whose sentinel is corrupt.  One record is
written in both runs; the first returns what `refcnt_ref` returns, the second
stops in the failed assertion as `refcnt_ref` does. -/
theorem trace_is_transparent_witness :
    api_ref true true ⟨"test.c", 13, "test_thread"⟩ "str" ⟨helloMem 1, ["earlier"]⟩ 24
      = (["earlier", "test.c:13:(test_thread) _refcnt_ref(str)"],
         refcnt_ref true (helloMem 1) 24) ∧
    api_ref true true ⟨"test.c", 13, "test_thread"⟩ "str" ⟨corruptMem, []⟩ 24
      = (["test.c:13:(test_thread) _refcnt_ref(str)"], Outcome.assertFail) :=
  ⟨(trace_is_transparent true ⟨"test.c", 13, "test_thread"⟩ "str" "" ⟨helloMem 1, ["earlier"]⟩
      NULL 24 0 []).2.2.1.1,
    (trace_is_transparent true ⟨"test.c", 13, "test_thread"⟩ "str" "" ⟨corruptMem, []⟩
      NULL 24 0 []).2.2.1.1⟩

end Refcnt
